import Mathlib

/-!
# agents.txt — verification of the manifest parser/validator/generator core

A shallow embedding, over `List Char` strings, of the agents.txt core:

* `packages/core/src/utils.ts` — `sanitizeValue`, `parseRateLimit`, `formatRateLimit`
* `packages/core/src/parser.ts` — the text-format block parser `parse` (with
  `flushCapability`, `flushAgent`, `parseParam`)
* the text generator `generate` (the repository file importing
  `sanitizeValue`/`formatRateLimit`, whose header emits `# Spec-Version:` as a comment)
* `packages/core/src/schema.ts` + `parser-json.ts` + `generator-json.ts` — the JSON
  side, with a concrete JSON value type and a model of the zod document schema
* `packages/core/src/validator.ts` — `validate`
* the discovery client variant carrying `validateUrl` (scheme validation that throws
  before any network activity)

JavaScript strings are modelled as `List Char` (UTF-16 code units and characters
coincide on every input considered here).  JS `trim`, regex `\s`, `\w`, `\d` are
modelled with their ECMAScript character classes.
-/

set_option maxRecDepth 200000

namespace AgentsTxt

/-- JS strings, modelled as lists of characters. -/
abbrev Str := List Char

/-- Coerce a Lean string literal to the `Str` model. -/
def str (s : String) : Str := s.toList

/-- The ECMAScript whitespace set used by `String.prototype.trim` and regex `\s`. -/
def jsWs (c : Char) : Bool :=
  let n := c.toNat
  n = 32 || (9 ≤ n && n ≤ 13) || n = 160 || n = 0x1680 ||
  (0x2000 ≤ n && n ≤ 0x200a) || n = 0x2028 || n = 0x2029 ||
  n = 0x202f || n = 0x205f || n = 0x3000 || n = 0xfeff

/-- `s.trimStart()` / leading half of `s.trim()`. -/
def trimLeft (l : Str) : Str := l.dropWhile jsWs

/-- JS `s.trim()`. -/
def trim (l : Str) : Str := ((l.dropWhile jsWs).reverse.dropWhile jsWs).reverse

/-- Prepend a character to the first line of a split result. -/
def headCons (c : Char) : List Str → List Str
  | [] => [[c]]
  | l :: ls => (c :: l) :: ls

/-- `input.split(/\r?\n/)`: `\n` terminates a line, consuming one immediately
preceding `\r`; a lone `\r` is ordinary content. -/
def splitLinesRN : Str → List Str
  | [] => [[]]
  | [c] => if c = '\n' then [[], []] else [[c]]
  | c :: d :: rest =>
    if c = '\n' then [] :: splitLinesRN (d :: rest)
    else if c = '\r' && d = '\n' then [] :: splitLinesRN rest
    else headCons c (splitLinesRN (d :: rest))

/-- Split at the FIRST occurrence of `ch` (JS `indexOf` + two `slice`s):
`none` models `indexOf === -1`. -/
def breakAt (ch : Char) : Str → Option (Str × Str)
  | [] => none
  | c :: rest =>
    if c = ch then some ([], rest)
    else match breakAt ch rest with
      | none => none
      | some (a, b) => some (c :: a, b)

/-- JS `value.split(",")` (no trimming; empty pieces kept). -/
def splitOnComma : Str → List Str
  | [] => [[]]
  | c :: rest =>
    if c = ',' then [] :: splitOnComma rest
    else match splitOnComma rest with
      | [] => [[c]]
      | l :: ls => (c :: l) :: ls

/-- `value.split(",").map((s) => s.trim())`. -/
def splitCommaTrim (l : Str) : List Str := (splitOnComma l).map trim

/-- Regex `\d`. -/
def isDigitCh (c : Char) : Bool := '0' ≤ c && c ≤ '9'

/-- Regex `\w` = `[A-Za-z0-9_]`. -/
def isWordCh (c : Char) : Bool :=
  ('a' ≤ c && c ≤ 'z') || ('A' ≤ c && c ≤ 'Z') || isDigitCh c || c = '_'

/-- ASCII model of JS `toUpperCase` (the parser applies it to HTTP verbs). -/
def toUpperAscii (l : Str) : Str :=
  l.map fun c => if 'a' ≤ c && c ≤ 'z' then Char.ofNat (c.toNat - 32) else c

/-- ASCII lowercase, for case-insensitive (`/i`) comparisons. -/
def lowerCh (c : Char) : Char :=
  if 'A' ≤ c && c ≤ 'Z' then Char.ofNat (c.toNat + 32) else c

/-- Case-insensitive (ASCII) literal match; returns the rest after the literal. -/
def ciDrop : Str → Str → Option Str
  | [], l => some l
  | _, [] => none
  | p :: ps, c :: cs => if lowerCh c = lowerCh p then ciDrop ps cs else none

/-- Digits to the number they denote (JS `parseInt(m, 10)` on an all-digit string;
arbitrary precision stands in for IEEE doubles, which are exact on every length
of rate-limit digits that matters here). -/
def natOfDigits (l : Str) : Nat :=
  l.foldl (fun acc c => acc * 10 + (c.toNat - 48)) 0

/-- One decimal digit character. -/
def digitCh (k : Nat) : Char :=
  if k = 0 then '0' else if k = 1 then '1' else if k = 2 then '2'
  else if k = 3 then '3' else if k = 4 then '4' else if k = 5 then '5'
  else if k = 6 then '6' else if k = 7 then '7' else if k = 8 then '8' else '9'

/-- Digit accumulation for decimal rendering (fuel-structural). -/
def natToStrAux : Nat → Nat → Str → Str
  | 0, _, acc => acc
  | fuel + 1, n, acc =>
    if n < 10 then digitCh (n % 10) :: acc
    else natToStrAux fuel (n / 10) (digitCh (n % 10) :: acc)

/-- Decimal rendering of a number (template-literal interpolation of a `number`). -/
def natToStr (n : Nat) : Str := natToStrAux (n + 1) n []

-- ## Document model (`packages/core/src/types.ts`)

/-- `RateLimitWindow` — `"second" | "minute" | "hour" | "day"`.  Every producer in
the repository (text regex, zod enum) yields exactly these four words, so the
closed TS union is modelled as an inductive. -/
inductive RateLimitWindow
  | second
  | minute
  | hour
  | day
deriving DecidableEq, Repr

/-- The wire word of a window. -/
def RateLimitWindow.toStr : RateLimitWindow → Str
  | .second => str "second"
  | .minute => str "minute"
  | .hour => str "hour"
  | .day => str "day"

/-- `RateLimit`. -/
structure RateLimit where
  requests : Nat
  window : RateLimitWindow
deriving DecidableEq, Repr

/-- `AuthConfig`.  `type` is a runtime string: the TS `AuthType` union is a
compile-time fiction the parser can bypass (`value as AuthType`). -/
structure AuthConfig where
  type : Str
  tokenEndpoint : Option Str
  docsUrl : Option Str
  registrationEndpoint : Option Str
  scopes : Option (List Str)
deriving DecidableEq, Repr

/-- `ParameterDef.in` — checked against `{query, path, header, body}` wherever it
is produced, hence an inductive.  (Named `loc`: `in` is reserved in Lean.) -/
inductive ParamLoc
  | query
  | path
  | header
  | body
deriving DecidableEq, Repr

/-- The wire word of a parameter location. -/
def ParamLoc.toStr : ParamLoc → Str
  | .query => str "query"
  | .path => str "path"
  | .header => str "header"
  | .body => str "body"

/-- `ParameterDef` (the never-populated `default: unknown` field is not modelled;
no code path in the repository writes or reads it). -/
structure ParameterDef where
  name : Str
  loc : ParamLoc
  type : Str
  required : Option Bool
  description : Option Str
  max : Option Rat
  min : Option Rat
deriving DecidableEq, Repr

/-- `Capability`.  `protocol` is a runtime string — the parser stores unknown
protocols verbatim (`value as Protocol`). -/
structure Capability where
  id : Str
  description : Str
  endpoint : Str
  method : Option Str
  protocol : Str
  auth : Option AuthConfig
  rateLimit : Option RateLimit
  openapi : Option Str
  parameters : Option (List ParameterDef)
  scopes : Option (List Str)
deriving DecidableEq, Repr

/-- `SiteInfo`. -/
structure SiteInfo where
  name : Str
  url : Str
  description : Option Str
  contact : Option Str
  privacyPolicy : Option Str
deriving DecidableEq, Repr

/-- `AccessControl`. -/
structure AccessControl where
  allow : List Str
  disallow : List Str
deriving DecidableEq, Repr

/-- `AgentPolicy`. -/
structure AgentPolicy where
  rateLimit : Option RateLimit
  capabilities : Option (List Str)
deriving DecidableEq, Repr

/-- `AgentsTxtDocument`.  JS objects (`agents`, `metadata`) are modelled as
insertion-ordered association lists, matching `Object.entries` iteration. -/
structure AgentsTxtDocument where
  specVersion : Str
  generatedAt : Option Str
  site : SiteInfo
  capabilities : List Capability
  access : AccessControl
  agents : List (Str × AgentPolicy)
  metadata : Option (List (Str × Str))
deriving DecidableEq, Repr

/-- `ParseError` / `ParseWarning` (same shape). -/
structure PMsg where
  line : Option Nat
  field : Option Str
  message : Str
deriving DecidableEq, Repr

/-- `ParseResult`. -/
structure ParseResult where
  success : Bool
  document : Option AgentsTxtDocument
  errors : List PMsg
  warnings : List PMsg
deriving DecidableEq, Repr

-- ## `packages/core/src/utils.ts`

/-- `sanitizeValue` with an explicit `maxLength`: replace each CR and LF with a
space, strip `\x00-\x1f`, trim, truncate. -/
def sanitizeValueWith (maxLength : Nat) (value : Str) : Str :=
  ((value.map fun c => if c = '\r' || c = '\n' then ' ' else c).filter
      (fun c => !(c.toNat ≤ 0x1f)) |> trim).take maxLength

/-- `sanitizeValue(value)` at the default `maxLength = 500`. -/
def sanitizeValue (value : Str) : Str := sanitizeValueWith 500 value

/-- `parseRateLimit`: the value must match `^(\d+)\/(second|minute|hour|day)$`
with a strictly positive count. -/
def parseRateLimit (value : Str) : Option RateLimit :=
  let digits := value.takeWhile isDigitCh
  if digits = [] then none
  else
    match value.drop digits.length with
    | '/' :: rest =>
      let window : Option RateLimitWindow :=
        if rest = str "second" then some .second
        else if rest = str "minute" then some .minute
        else if rest = str "hour" then some .hour
        else if rest = str "day" then some .day
        else none
      match window with
      | none => none
      | some w =>
        let requests := natOfDigits digits
        if requests = 0 then none else some ⟨requests, w⟩
    | _ => none

/-- `formatRateLimit`: `` `${requests}/${window}` ``. -/
def formatRateLimit (requests : Nat) (window : RateLimitWindow) : Str :=
  natToStr requests ++ '/' :: window.toStr

-- ## `parseParam` (`packages/core/src/parser.ts`)

/-- `parseParam`: a faithful Lean rendering of the anchored regex
`^(\w+)\s*\(\s*(\w+)\s*,\s*(\w+)(?:\s*,\s*(required))?\s*\)(?:\s*—\s*(.+))?$`
followed by the `validLocations` check.  The regex is deterministic here: every
capture is a maximal `\w+`/`.+` run, and the only live backtracking point
(`\s*(.+)` after the em-dash) is equivalent to trimming the captured tail,
which the source applies anyway (`description?.trim()`). -/
def parseParam (value : Str) : Option ParameterDef :=
  let name := value.takeWhile isWordCh
  if name = [] then none else
  match (value.drop name.length).dropWhile jsWs with
  | '(' :: r1 =>
    let r2 := r1.dropWhile jsWs
    let location := r2.takeWhile isWordCh
    if location = [] then none else
    match (r2.drop location.length).dropWhile jsWs with
    | ',' :: r3 =>
      let r4 := r3.dropWhile jsWs
      let typ := r4.takeWhile isWordCh
      if typ = [] then none else
      let r5 := (r4.drop typ.length).dropWhile jsWs
      -- `(?:\s*,\s*(required))?\s*\)`
      let afterParen : Option (Bool × Str) :=
        match r5 with
        | ')' :: r6 => some (false, r6)
        | ',' :: r6 =>
          let r7 := r6.dropWhile jsWs
          if (str "required").isPrefixOf r7 then
            match (r7.drop 8).dropWhile jsWs with
            | ')' :: r8 => some (true, r8)
            | _ => none
          else none
        | _ => none
      match afterParen with
      | none => none
      | some (req, rest) =>
        -- `(?:\s*—\s*(.+))?$`
        let described : Option (Option Str) :=
          if rest = [] then some none
          else match rest.dropWhile jsWs with
            | '—' :: r9 => if r9 = [] then none else some (some (trim r9))
            | _ => none
        match described with
        | none => none
        | some description =>
          let locV : Option ParamLoc :=
            if location = str "query" then some .query
            else if location = str "path" then some .path
            else if location = str "header" then some .header
            else if location = str "body" then some .body
            else none
          match locV with
          | none => none
          | some loc =>
            some ⟨name, loc, typ, some req, description, none, none⟩
    | _ => none
  | _ => none

-- ## The text parser (`packages/core/src/parser.ts`)

/-- `VALID_PROTOCOLS`. -/
def VALID_PROTOCOLS : List Str :=
  [str "REST", str "MCP", str "A2A", str "GraphQL", str "WebSocket"]

/-- `VALID_AUTH_TYPES`. -/
def VALID_AUTH_TYPES : List Str :=
  [str "none", str "api-key", str "bearer-token", str "oauth2", str "hmac"]

/-- `MAX_INPUT_SIZE` — 1 MB. -/
def MAX_INPUT_SIZE : Nat := 1024 * 1024

/-- `MAX_CAPABILITIES`. -/
def MAX_CAPABILITIES : Nat := 1000

/-- The three parser states. -/
inductive ParserState
  | top
  | inCapability
  | inAgent
deriving DecidableEq, Repr

/-- `Partial<Capability>` as accumulated inside a block. -/
structure PartialCap where
  id : Str
  description : Option Str
  endpoint : Option Str
  method : Option Str
  protocol : Option Str
  auth : Option AuthConfig
  rateLimit : Option RateLimit
  openapi : Option Str
  parameters : Option (List ParameterDef)
  scopes : Option (List Str)
deriving DecidableEq, Repr

/-- A fresh `{ id: value }` partial capability. -/
def PartialCap.make (id : Str) : PartialCap :=
  ⟨id, none, none, none, none, none, none, none, none, none⟩

/-- The parser's accumulated mutable state. -/
structure PState where
  specVersion : Str
  generatedAt : Option Str
  siteName : Option Str
  siteUrl : Option Str
  siteDescription : Option Str
  siteContact : Option Str
  sitePrivacyPolicy : Option Str
  capabilities : List Capability
  allowPaths : List Str
  disallowPaths : List Str
  agents : List (Str × AgentPolicy)
  metadata : List (Str × Str)
  state : ParserState
  currentCapability : Option PartialCap
  currentAgentName : Option Str
  currentAgentPolicy : Option AgentPolicy
  errors : List PMsg
  warnings : List PMsg
deriving DecidableEq, Repr

/-- The initial parser state (`specVersion = "1.0"`). -/
def PState.init : PState :=
  ⟨str "1.0", none, none, none, none, none, none, [], [], [], [], [],
   .top, none, none, none, [], []⟩

/-- JS object assignment `m[k] = v`: overwrite in place, else append. -/
def upsertAssoc {α : Type} (m : List (Str × α)) (k : Str) (v : α) : List (Str × α) :=
  match m with
  | [] => [(k, v)]
  | (k0, v0) :: rest =>
    if k0 = k then (k0, v) :: rest else (k0, v0) :: upsertAssoc rest k v

/-- `flushCapability`: commit the open block if its `id` is truthy (non-empty). -/
def flushCapability (st : PState) : PState :=
  match st.currentCapability with
  | none => { st with currentCapability := none }
  | some pc =>
    if pc.id = [] then { st with currentCapability := none }
    else
      { st with
        capabilities := st.capabilities ++
          [⟨pc.id, pc.description.getD [], pc.endpoint.getD [], pc.method,
            pc.protocol.getD (str "REST"), pc.auth, pc.rateLimit, pc.openapi,
            pc.parameters, pc.scopes⟩],
        currentCapability := none }

/-- `flushAgent`: commit the open agent block when name and policy are set. -/
def flushAgent (st : PState) : PState :=
  match st.currentAgentName, st.currentAgentPolicy with
  | some name, some policy =>
    { st with agents := upsertAssoc st.agents name policy,
              currentAgentName := none, currentAgentPolicy := none }
  | _, _ => { st with currentAgentName := none, currentAgentPolicy := none }

/-- The comment-directive regex `^#\s*<keyword>:\s*(.+)/i` applied to a trimmed
line (used for `Spec-Version` and `Generated`); returns `match[1].trim()`. -/
def matchHashDirective (keyword : Str) (trimmed : Str) : Option Str :=
  match trimmed with
  | '#' :: rest =>
    match ciDrop keyword (rest.dropWhile jsWs) with
    | none => none
    | some afterKw =>
      match afterKw with
      | ':' :: tail => if tail = [] then none else some (trim tail)
      | _ => none
  | _ => none

/-- The handler switch for an indented line inside a capability block
(`key`/`value` already extracted and trimmed). -/
def capabilityFieldStep (st : PState) (pc : PartialCap) (lineNum : Nat)
    (key value : Str) : PState :=
  if key = str "Endpoint" then
    { st with currentCapability := some { pc with endpoint := some value } }
  else if key = str "Method" then
    { st with currentCapability := some { pc with method := some (toUpperAscii value) } }
  else if key = str "Protocol" then
    if VALID_PROTOCOLS.contains value then
      { st with currentCapability := some { pc with protocol := some value } }
    else
      { st with
        currentCapability := some { pc with protocol := some value },
        warnings := st.warnings ++
          [⟨some lineNum, some (str "Protocol"), str "Unknown protocol: " ++ value⟩] }
  else if key = str "Auth" then
    let a := pc.auth.getD ⟨str "none", none, none, none, none⟩
    if VALID_AUTH_TYPES.contains value then
      { st with currentCapability := some { pc with auth := some { a with type := value } } }
    else
      { st with
        currentCapability := some { pc with auth := some a },
        warnings := st.warnings ++
          [⟨some lineNum, some (str "Auth"), str "Unknown auth type: " ++ value⟩] }
  else if key = str "Auth-Endpoint" then
    let a := pc.auth.getD ⟨str "bearer-token", none, none, none, none⟩
    { st with currentCapability := some { pc with auth := some { a with tokenEndpoint := some value } } }
  else if key = str "Auth-Docs" then
    let a := pc.auth.getD ⟨str "none", none, none, none, none⟩
    { st with currentCapability := some { pc with auth := some { a with docsUrl := some value } } }
  else if key = str "Registration-Endpoint" then
    let a := pc.auth.getD ⟨str "oauth2", none, none, none, none⟩
    { st with currentCapability := some { pc with auth := some { a with registrationEndpoint := some value } } }
  else if key = str "Scopes" then
    let a := pc.auth.getD ⟨str "oauth2", none, none, none, none⟩
    { st with currentCapability := some { pc with auth := some { a with scopes := some (splitCommaTrim value) } } }
  else if key = str "Rate-Limit" then
    match parseRateLimit value with
    | some rl => { st with currentCapability := some { pc with rateLimit := some rl } }
    | none =>
      { st with warnings := st.warnings ++
          [⟨some lineNum, some (str "Rate-Limit"), str "Invalid rate limit: " ++ value⟩] }
  else if key = str "Description" then
    { st with currentCapability := some { pc with description := some value } }
  else if key = str "OpenAPI" then
    { st with currentCapability := some { pc with openapi := some value } }
  else if key = str "Param" then
    match parseParam value with
    | some pd =>
      { st with currentCapability := some { pc with parameters := some (pc.parameters.getD [] ++ [pd]) } }
    | none =>
      { st with warnings := st.warnings ++
          [⟨some lineNum, some (str "Param"), str "Invalid parameter: " ++ value⟩] }
  else
    { st with warnings := st.warnings ++
        [⟨some lineNum, none, str "Unknown capability field: " ++ key⟩] }

/-- The handler switch for an indented line inside an agent block. -/
def agentFieldStep (st : PState) (pol : AgentPolicy) (lineNum : Nat)
    (key value : Str) : PState :=
  if key = str "Rate-Limit" then
    match parseRateLimit value with
    | some rl => { st with currentAgentPolicy := some { pol with rateLimit := some rl } }
    | none => st
  else if key = str "Capabilities" then
    { st with currentAgentPolicy := some { pol with capabilities := some (splitCommaTrim value) } }
  else
    { st with warnings := st.warnings ++
        [⟨some lineNum, none, str "Unknown agent field: " ++ key⟩] }

/-- The handler switch for a top-level `key: value` line (any open block
already flushed). -/
def topLevelFieldStep (st : PState) (lineNum : Nat) (key value : Str) : PState :=
  if key = str "Site-Name" then { st with siteName := some value }
  else if key = str "Site-URL" then { st with siteUrl := some value }
  else if key = str "Description" || key = str "Site-Description" then
    { st with siteDescription := some value }
  else if key = str "Contact" || key = str "Site-Contact" then
    { st with siteContact := some value }
  else if key = str "Privacy-Policy" || key = str "Site-Privacy-Policy" then
    { st with sitePrivacyPolicy := some value }
  else if key = str "Allow" then { st with allowPaths := st.allowPaths ++ [value] }
  else if key = str "Disallow" then { st with disallowPaths := st.disallowPaths ++ [value] }
  else if key = str "Agents-JSON" then
    { st with metadata := upsertAssoc st.metadata (str "Agents-JSON") value }
  else if key = str "Capability" then
    if MAX_CAPABILITIES ≤ st.capabilities.length then
      { st with errors := st.errors ++
          [⟨some lineNum, none, str "Exceeds maximum of 1000 capabilities"⟩] }
    else
      { st with currentCapability := some (PartialCap.make value),
                state := .inCapability }
  else if key = str "Agent" then
    { st with currentAgentName := some value,
              currentAgentPolicy := some ⟨none, none⟩,
              state := .inAgent }
  else
    { st with metadata := upsertAssoc st.metadata key value }

/-- One iteration of the parser's line loop. -/
def parseStep (st : PState) (lineNum : Nat) (raw : Str) : PState :=
  let trimmed := trim raw
  -- Skip empty lines and comments (harvesting `# Spec-Version:` / `# Generated:`)
  if trimmed = [] || trimmed.headD ' ' = '#' then
    let st :=
      match matchHashDirective (str "Spec-Version") trimmed with
      | some v => { st with specVersion := v }
      | none => st
    match matchHashDirective (str "Generated") trimmed with
    | some v => { st with generatedAt := some v }
    | none => st
  else
    let isIndented := (str "  ").isPrefixOf raw || (str "\t").isPrefixOf raw
    if h1 : isIndented ∧ st.state = .inCapability ∧ st.currentCapability.isSome then
      let pc := st.currentCapability.get h1.2.2
      match breakAt ':' trimmed with
      | none =>
        { st with warnings := st.warnings ++
            [⟨some lineNum, none,
              str "Unparseable indented line: \"" ++ trimmed ++ str "\""⟩] }
      | some (rawKey, rawValue) =>
        capabilityFieldStep st pc lineNum (trim rawKey) (trim rawValue)
    else if h2 : isIndented ∧ st.state = .inAgent ∧ st.currentAgentPolicy.isSome then
      let pol := st.currentAgentPolicy.get h2.2.2
      match breakAt ':' trimmed with
      | none => st
      | some (rawKey, rawValue) =>
        agentFieldStep st pol lineNum (trim rawKey) (trim rawValue)
    else
      -- Non-indented line (or indented outside a block) — flush any open block
      let st := if st.state = .inCapability then { flushCapability st with state := .top } else st
      let st := if st.state = .inAgent then { flushAgent st with state := .top } else st
      match breakAt ':' trimmed with
      | none =>
        { st with warnings := st.warnings ++
            [⟨some lineNum, none, str "Unparseable line: \"" ++ trimmed ++ str "\""⟩] }
      | some (rawKey, rawValue) =>
        topLevelFieldStep st lineNum (trim rawKey) (trim rawValue)

/-- The parser's line loop: fold `parseStep` over the lines, numbering from `lineNum`. -/
def parseLines (st : PState) (lineNum : Nat) : List Str → PState
  | [] => st
  | l :: ls => parseLines (parseStep st lineNum l) (lineNum + 1) ls

/-- `parse`: the full text parser. -/
def parse (input : Str) : ParseResult :=
  if MAX_INPUT_SIZE < input.length then
    ⟨false, none, [⟨none, none, str "Input exceeds maximum size of 1048576 bytes"⟩], []⟩
  else
    let lines := splitLinesRN input
    let st := parseLines PState.init 1 lines
    let st := if st.state = .inCapability then flushCapability st else st
    let st := if st.state = .inAgent then flushAgent st else st
    let errors := st.errors ++
      (if st.siteName.getD [] = [] then
        [⟨none, some (str "Site-Name"), str "Site-Name is required"⟩] else []) ++
      (if st.siteUrl.getD [] = [] then
        [⟨none, some (str "Site-URL"), str "Site-URL is required"⟩] else [])
    if errors ≠ [] then ⟨false, none, errors, st.warnings⟩
    else
      ⟨true,
       some ⟨st.specVersion, st.generatedAt,
             ⟨st.siteName.getD [], st.siteUrl.getD [], st.siteDescription,
              st.siteContact, st.sitePrivacyPolicy⟩,
             st.capabilities,
             ⟨if st.allowPaths = [] then [str "*"] else st.allowPaths, st.disallowPaths⟩,
             (if st.agents = [] then [(str "*", ⟨none, none⟩)] else st.agents),
             (if st.metadata = [] then none else some st.metadata)⟩,
       [], st.warnings⟩

-- ## The text generator (`generate`, the repository file using
-- `sanitizeValue`/`formatRateLimit` with the `# Spec-Version:` comment header)

/-- JS truthiness of an optional string (`undefined` and `""` are falsy). -/
def truthy (o : Option Str) : Bool := !(o.getD []).isEmpty

/-- `parts.join(sep)`. -/
def joinSep (sep : Str) : List Str → Str
  | [] => []
  | [x] => x
  | x :: xs => x ++ sep ++ joinSep sep xs

/-- The `Param:` line built for one parameter. -/
def paramLine (p : ParameterDef) : Str :=
  let parts := [p.loc.toStr, p.type] ++ (if p.required.getD false then [str "required"] else [])
  let line := str "  Param: " ++ sanitizeValue p.name ++ str " (" ++ joinSep (str ", ") parts ++ str ")"
  if truthy p.description then line ++ str " — " ++ sanitizeValue (p.description.getD [])
  else line

/-- The lines pushed for one capability (including its trailing blank line). -/
def capLines (cap : Capability) : List Str :=
  [str "Capability: " ++ sanitizeValue cap.id,
   str "  Endpoint: " ++ sanitizeValue cap.endpoint] ++
  (if truthy cap.method then [str "  Method: " ++ sanitizeValue (cap.method.getD [])] else []) ++
  [str "  Protocol: " ++ sanitizeValue cap.protocol] ++
  (match cap.auth with
   | none => []
   | some a =>
     [str "  Auth: " ++ sanitizeValue a.type] ++
     (if truthy a.tokenEndpoint then [str "  Auth-Endpoint: " ++ sanitizeValue (a.tokenEndpoint.getD [])] else []) ++
     (if truthy a.docsUrl then [str "  Auth-Docs: " ++ sanitizeValue (a.docsUrl.getD [])] else []) ++
     (match a.scopes with
      | some scopes =>
        if scopes.length ≠ 0 then [str "  Scopes: " ++ joinSep (str ", ") (scopes.map sanitizeValue)] else []
      | none => [])) ++
  (match cap.rateLimit with
   | some rl => [str "  Rate-Limit: " ++ formatRateLimit rl.requests rl.window]
   | none => []) ++
  (if truthy (some cap.description) then [str "  Description: " ++ sanitizeValue cap.description] else []) ++
  (if truthy cap.openapi then [str "  OpenAPI: " ++ sanitizeValue (cap.openapi.getD [])] else []) ++
  (match cap.parameters with
   | some params => params.map paramLine
   | none => []) ++
  [[]]

/-- The lines pushed for one agent-policy entry. -/
def agentLines (entry : Str × AgentPolicy) : List Str :=
  [str "Agent: " ++ sanitizeValue entry.1] ++
  (match entry.2.rateLimit with
   | some rl => [str "  Rate-Limit: " ++ formatRateLimit rl.requests rl.window]
   | none => []) ++
  (match entry.2.capabilities with
   | some caps => if caps.length ≠ 0 then [str "  Capabilities: " ++ joinSep (str ", ") caps] else []
   | none => [])

/-- The full `lines` array assembled by `generate` before `join("\n")`. -/
def generateLines (doc : AgentsTxtDocument) : List Str :=
  [str "# agents.txt — AI Agent Capability Declaration",
   str "# Spec-Version: " ++ doc.specVersion] ++
  (if truthy doc.generatedAt then [str "# Generated-At: " ++ doc.generatedAt.getD []] else []) ++
  [[]] ++
  [str "Site-Name: " ++ sanitizeValue doc.site.name,
   str "Site-URL: " ++ sanitizeValue doc.site.url] ++
  (if truthy doc.site.description then [str "Description: " ++ sanitizeValue (doc.site.description.getD [])] else []) ++
  (if truthy doc.site.contact then [str "Contact: " ++ sanitizeValue (doc.site.contact.getD [])] else []) ++
  (if truthy doc.site.privacyPolicy then [str "Privacy-Policy: " ++ sanitizeValue (doc.site.privacyPolicy.getD [])] else []) ++
  [[]] ++
  doc.capabilities.flatMap capLines ++
  doc.access.allow.map (fun p => str "Allow: " ++ sanitizeValue p) ++
  doc.access.disallow.map (fun p => str "Disallow: " ++ sanitizeValue p) ++
  [[]] ++
  doc.agents.flatMap agentLines ++
  [[]] ++
  (match doc.metadata with
   | some md => md.map (fun kv => kv.1 ++ str ": " ++ sanitizeValue kv.2)
   | none => [])

/-- `generate`: `lines.join("\n") + "\n"`. -/
def generate (doc : AgentsTxtDocument) : Str :=
  joinSep (str "\n") (generateLines doc) ++ str "\n"

-- ## JSON values and the zod document schema
-- (`packages/core/src/schema.ts`, `parser-json.ts`, `generator-json.ts`)

/-- JSON values.  Numbers are modelled as rationals (exact on every literal in
this development); objects are insertion-ordered association lists. -/
inductive Json
  | null
  | bool (b : Bool)
  | num (q : Rat)
  | str (s : Str)
  | arr (elems : List Json)
  | obj (fields : List (Str × Json))

/-- First-entry association lookup (the JSON decoder below keeps keys unique). -/
def jsonLookup (fields : List (Str × Json)) (k : Str) : Option Json :=
  match fields.find? (fun kv => kv.1 = k) with
  | some kv => some kv.2
  | none => none

/-- `z.string()`: accept exactly JSON strings. -/
def asStr : Json → Option Str
  | .str s => some s
  | _ => none

/-- An optional object key: absent (or `undefined`) is fine, present must
validate (`null` present fails `z.optional`). -/
def optField {α : Type} (fields : List (Str × Json)) (k : Str) (f : Json → Option α) :
    Option (Option α) :=
  match jsonLookup fields k with
  | none => some none
  | some v => (f v).map some

/-- `specVersion` regex `^\d+\.\d+$`. -/
def verOk (s : Str) : Bool :=
  let d1 := s.takeWhile isDigitCh
  d1 ≠ [] &&
    match s.drop d1.length with
    | '.' :: r => r ≠ [] && r.all isDigitCh
    | _ => false

/-- `z.string().datetime()` (zod default: `^\d{4}-\d{2}-\d{2}T\d{2}:\d{2}:\d{2}(\.\d+)?Z$`). -/
def isoDatetimeOk (s : Str) : Bool :=
  match s with
  | [y1, y2, y3, y4, '-', mo1, mo2, '-', d1, d2, 'T',
     h1, h2, ':', mi1, mi2, ':', s1, s2] =>
    [y1, y2, y3, y4, mo1, mo2, d1, d2, h1, h2, mi1, mi2, s1, s2].all isDigitCh
  | y1 :: y2 :: y3 :: y4 :: '-' :: mo1 :: mo2 :: '-' :: d1 :: d2 :: 'T' ::
    h1 :: h2 :: ':' :: mi1 :: mi2 :: ':' :: s1 :: s2 :: '.' :: rest =>
    [y1, y2, y3, y4, mo1, mo2, d1, d2, h1, h2, mi1, mi2, s1, s2].all isDigitCh &&
    (match rest.reverse with
     | 'Z' :: fracRev => fracRev ≠ [] && fracRev.all isDigitCh
     | _ => false)
  | _ => false

/-- ASCII letter. -/
def isAsciiAlpha (c : Char) : Bool := ('a' ≤ c && c ≤ 'z') || ('A' ≤ c && c ≤ 'Z')

/-- URL scheme tail characters (RFC 3986 / WHATWG). -/
def isSchemeCh (c : Char) : Bool := isAsciiAlpha c || isDigitCh c || c = '+' || c = '-' || c = '.'

/-- ASCII lowercase of a string. -/
def lowerStr (l : Str) : Str := l.map lowerCh

/-- Model of WHATWG `new URL(input)` success, returning `url.protocol` (the
lowercased scheme plus `":"`).  Tabs and newlines are removed, C0/space is
trimmed at the ends, a leading-alpha scheme followed by `:` is required, and a
special scheme (`http`, `https`, `ws`, `wss`, `ftp`) additionally requires a
nonempty host.  This covers every URL shape exercised in this development;
full WHATWG host validation is out of scope. -/
def urlProtocolModel (s : Str) : Option Str :=
  let t := s.filter (fun c => !(c = '\t' || c = '\n' || c = '\r'))
  let t := ((t.dropWhile (fun c => c.toNat ≤ 32)).reverse.dropWhile (fun c => c.toNat ≤ 32)).reverse
  match t with
  | [] => none
  | c :: rest =>
    if isAsciiAlpha c then
      let schemeRest := rest.takeWhile isSchemeCh
      let scheme := lowerStr (c :: schemeRest)
      match rest.drop schemeRest.length with
      | ':' :: after =>
        if scheme = str "http" || scheme = str "https" || scheme = str "ws" ||
           scheme = str "wss" || scheme = str "ftp" then
          let afterSlashes := after.dropWhile (· = '/')
          let host := afterSlashes.takeWhile
            (fun c => !(c = '/' || c = '?' || c = '#' || c = '\\'))
          if host = [] then none else some (scheme ++ [':'])
        else some (scheme ++ [':'])
      | _ => none
    else none

/-- `z.string().url()` — zod v3 delegates to `new URL`. -/
def jsUrlOk (s : Str) : Bool := (urlProtocolModel s).isSome

/-- `z.string().email()` — model of the zod v3 email regex: a dot-separated
local part over `[A-Za-z0-9_'+-]` (no leading dot, no `..`, no dot before `@`),
then `@`, then one or more hyphenated alphanumeric labels and an alphabetic
TLD of length ≥ 2. -/
def jsEmailOk (s : Str) : Bool :=
  match breakAt '@' s with
  | none => false
  | some (local_, domain) =>
    let localCh (c : Char) : Bool := isAsciiAlpha c || isDigitCh c || c = '_' || c = '+' || c = '-'
    let pieces := splitOnComma (local_.map (fun c => if c = '.' then ',' else c))
    (local_ ≠ [] && pieces.all (fun p => p ≠ [] && p.all localCh) &&
     (match local_.reverse with
      | c :: _ => localCh c
      | [] => false)) &&
    (let labels := splitOnComma (domain.map (fun c => if c = '.' then ',' else c))
     2 ≤ labels.length &&
     labels.dropLast.all (fun lab =>
       match lab with
       | c0 :: _ => (isAsciiAlpha c0 || isDigitCh c0) &&
           lab.all (fun c => isAsciiAlpha c || isDigitCh c || c = '-')
       | [] => false) &&
     (match labels.getLast? with
      | some tld => 2 ≤ tld.length && tld.all isAsciiAlpha
      | none => false))

/-- Capability-id regex `^[a-z0-9][a-z0-9-]*$`. -/
def capIdOk (s : Str) : Bool :=
  let idCh (c : Char) : Bool := ('a' ≤ c && c ≤ 'z') || isDigitCh c
  match s with
  | [] => false
  | c :: rest => idCh c && rest.all (fun d => idCh d || d = '-')

/-- `RateLimitSchema`. -/
def zodRateLimit (j : Json) : Option RateLimit :=
  match j with
  | .obj fields => do
    let rq ← jsonLookup fields (str "requests")
    match rq with
    | .num q =>
      if q.den = 1 && 0 < q then
        let w ← jsonLookup fields (str "window")
        match w with
        | .str s =>
          if s = str "second" then some ⟨q.num.toNat, .second⟩
          else if s = str "minute" then some ⟨q.num.toNat, .minute⟩
          else if s = str "hour" then some ⟨q.num.toNat, .hour⟩
          else if s = str "day" then some ⟨q.num.toNat, .day⟩
          else none
        | _ => none
      else none
    | _ => none
  | _ => none

/-- `AuthConfigSchema` — note: NO `registrationEndpoint` key is declared, so a
present one is silently stripped (zod objects default to "strip"). -/
def zodAuthConfig (j : Json) : Option AuthConfig :=
  match j with
  | .obj fields => do
    let ty ← (jsonLookup fields (str "type")).bind asStr
    if VALID_AUTH_TYPES.contains ty then
      let te ← optField fields (str "tokenEndpoint")
        (fun v => (asStr v).bind fun s => if jsUrlOk s then some s else none)
      let du ← optField fields (str "docsUrl")
        (fun v => (asStr v).bind fun s => if jsUrlOk s then some s else none)
      let sc ← optField fields (str "scopes")
        (fun v => match v with
          | .arr elems => elems.mapM asStr
          | _ => none)
      some ⟨ty, te, du, none, sc⟩
    else none
  | _ => none

/-- `ParameterDefSchema` (the pass-through `default: z.unknown()` field is not
modelled; nothing in the repository ever writes it). -/
def zodParameterDef (j : Json) : Option ParameterDef :=
  match j with
  | .obj fields => do
    let name ← (jsonLookup fields (str "name")).bind asStr
    if name = [] then none else
    let locS ← (jsonLookup fields (str "in")).bind asStr
    let loc ←
      (if locS = str "query" then some ParamLoc.query
       else if locS = str "path" then some ParamLoc.path
       else if locS = str "header" then some ParamLoc.header
       else if locS = str "body" then some ParamLoc.body
       else none)
    let ty ← (jsonLookup fields (str "type")).bind asStr
    if ty = [] then none else
    let req ← optField fields (str "required")
      (fun v => match v with | .bool b => some b | _ => none)
    let desc ← optField fields (str "description") asStr
    let mx ← optField fields (str "max")
      (fun v => match v with | .num q => some q | _ => none)
    let mn ← optField fields (str "min")
      (fun v => match v with | .num q => some q | _ => none)
    some ⟨name, loc, ty, req, desc, mx, mn⟩
  | _ => none

/-- `CapabilitySchema`. -/
def zodCapability (j : Json) : Option Capability :=
  match j with
  | .obj fields => do
    let id ← (jsonLookup fields (str "id")).bind asStr
    if 1 ≤ id.length && id.length ≤ 100 && capIdOk id then
      let desc ← (jsonLookup fields (str "description")).bind asStr
      if 1 ≤ desc.length && desc.length ≤ 500 then
        let ep ← (jsonLookup fields (str "endpoint")).bind asStr
        if jsUrlOk ep then
          let method ← optField fields (str "method") asStr
          let proto ← (jsonLookup fields (str "protocol")).bind asStr
          if VALID_PROTOCOLS.contains proto then
            let auth ← optField fields (str "auth") zodAuthConfig
            let rl ← optField fields (str "rateLimit") zodRateLimit
            let oa ← optField fields (str "openapi")
              (fun v => (asStr v).bind fun s => if jsUrlOk s then some s else none)
            let params ← optField fields (str "parameters")
              (fun v => match v with
                | .arr elems => elems.mapM zodParameterDef
                | _ => none)
            let scopes ← optField fields (str "scopes")
              (fun v => match v with
                | .arr elems => elems.mapM asStr
                | _ => none)
            some ⟨id, desc, ep, method, proto, auth, rl, oa, params, scopes⟩
          else none
        else none
      else none
    else none
  | _ => none

/-- `SiteInfoSchema`. -/
def zodSiteInfo (j : Json) : Option SiteInfo :=
  match j with
  | .obj fields => do
    let name ← (jsonLookup fields (str "name")).bind asStr
    if 1 ≤ name.length && name.length ≤ 200 then
      let url ← (jsonLookup fields (str "url")).bind asStr
      if jsUrlOk url then
        let desc ← optField fields (str "description")
          (fun v => (asStr v).bind fun s => if s.length ≤ 500 then some s else none)
        let contact ← optField fields (str "contact")
          (fun v => (asStr v).bind fun s => if jsEmailOk s then some s else none)
        let pp ← optField fields (str "privacyPolicy")
          (fun v => (asStr v).bind fun s => if jsUrlOk s then some s else none)
        some ⟨name, url, desc, contact, pp⟩
      else none
    else none
  | _ => none

/-- `AccessControlSchema`. -/
def zodAccessControl (j : Json) : Option AccessControl :=
  match j with
  | .obj fields => do
    let allow ← jsonLookup fields (str "allow")
    let disallow ← jsonLookup fields (str "disallow")
    match allow, disallow with
    | .arr a, .arr d => do
      let a2 ← a.mapM asStr
      let d2 ← d.mapM asStr
      some ⟨a2, d2⟩
    | _, _ => none
  | _ => none

/-- `AgentPolicySchema`. -/
def zodAgentPolicy (j : Json) : Option AgentPolicy :=
  match j with
  | .obj fields => do
    let rl ← optField fields (str "rateLimit") zodRateLimit
    let caps ← optField fields (str "capabilities")
      (fun v => match v with
        | .arr elems => elems.mapM asStr
        | _ => none)
    some ⟨rl, caps⟩
  | _ => none

/-- `AgentsTxtDocumentSchema.safeParse` on a JSON value: `some` is a successful
parse whose payload is the (unknown-keys-stripped) document. -/
def zodDocument (j : Json) : Option AgentsTxtDocument :=
  match j with
  | .obj fields => do
    let sv ← (jsonLookup fields (str "specVersion")).bind asStr
    if verOk sv then
      let ga ← optField fields (str "generatedAt")
        (fun v => (asStr v).bind fun s => if isoDatetimeOk s then some s else none)
      let site ← (jsonLookup fields (str "site")).bind zodSiteInfo
      let caps ← (jsonLookup fields (str "capabilities")).bind
        (fun v => match v with
          | .arr elems => elems.mapM zodCapability
          | _ => none)
      let access ← (jsonLookup fields (str "access")).bind zodAccessControl
      let agents ← (jsonLookup fields (str "agents")).bind
        (fun v => match v with
          | .obj entries => entries.mapM (fun kv => (zodAgentPolicy kv.2).map (kv.1, ·))
          | _ => none)
      let md ← optField fields (str "metadata")
        (fun v => match v with
          | .obj entries => entries.mapM (fun kv => (asStr kv.2).map (kv.1, ·))
          | _ => none)
      some ⟨sv, ga, site, caps, access, agents, md⟩
    else none
  | _ => none

-- ### Serializing a runtime document to its JSON value

/-- An optional string property (omitted when `undefined`). -/
def jOptStr (k : Str) (v : Option Str) : List (Str × Json) :=
  match v with
  | some s => [(k, .str s)]
  | none => []

/-- `RateLimit` as a JSON object. -/
def rateLimitJson (rl : RateLimit) : Json :=
  .obj [(str "requests", .num rl.requests), (str "window", .str rl.window.toStr)]

/-- `AuthConfig` as a JSON object (the runtime object CAN carry
`registrationEndpoint`; serialization keeps it, the schema strips it). -/
def authJson (a : AuthConfig) : Json :=
  .obj ([(str "type", .str a.type)] ++
    jOptStr (str "tokenEndpoint") a.tokenEndpoint ++
    jOptStr (str "docsUrl") a.docsUrl ++
    jOptStr (str "registrationEndpoint") a.registrationEndpoint ++
    (match a.scopes with
     | some sc => [(str "scopes", .arr (sc.map Json.str))]
     | none => []))

/-- `ParameterDef` as a JSON object. -/
def parameterJson (p : ParameterDef) : Json :=
  .obj ([(str "name", .str p.name), (str "in", .str p.loc.toStr), (str "type", .str p.type)] ++
    (match p.required with
     | some b => [(str "required", .bool b)]
     | none => []) ++
    jOptStr (str "description") p.description ++
    (match p.max with
     | some q => [(str "max", .num q)]
     | none => []) ++
    (match p.min with
     | some q => [(str "min", .num q)]
     | none => []))

/-- `Capability` as a JSON object. -/
def capabilityJson (c : Capability) : Json :=
  .obj ([(str "id", .str c.id), (str "description", .str c.description),
         (str "endpoint", .str c.endpoint)] ++
    jOptStr (str "method") c.method ++
    [(str "protocol", .str c.protocol)] ++
    (match c.auth with
     | some a => [(str "auth", authJson a)]
     | none => []) ++
    (match c.rateLimit with
     | some rl => [(str "rateLimit", rateLimitJson rl)]
     | none => []) ++
    jOptStr (str "openapi") c.openapi ++
    (match c.parameters with
     | some ps => [(str "parameters", .arr (ps.map parameterJson))]
     | none => []) ++
    (match c.scopes with
     | some sc => [(str "scopes", .arr (sc.map Json.str))]
     | none => []))

/-- `SiteInfo` as a JSON object. -/
def siteJson (s : SiteInfo) : Json :=
  .obj ([(str "name", .str s.name), (str "url", .str s.url)] ++
    jOptStr (str "description") s.description ++
    jOptStr (str "contact") s.contact ++
    jOptStr (str "privacyPolicy") s.privacyPolicy)

/-- `AgentPolicy` as a JSON object. -/
def agentPolicyJson (p : AgentPolicy) : Json :=
  .obj ((match p.rateLimit with
     | some rl => [(str "rateLimit", rateLimitJson rl)]
     | none => []) ++
    (match p.capabilities with
     | some caps => [(str "capabilities", .arr (caps.map Json.str))]
     | none => []))

/-- The whole document as a JSON value (the runtime object handed to
`JSON.stringify` / `safeParse`, fields in schema order). -/
def documentJson (d : AgentsTxtDocument) : Json :=
  .obj ([(str "specVersion", .str d.specVersion)] ++
    jOptStr (str "generatedAt") d.generatedAt ++
    [(str "site", siteJson d.site),
     (str "capabilities", .arr (d.capabilities.map capabilityJson)),
     (str "access", .obj [(str "allow", .arr (d.access.allow.map Json.str)),
                          (str "disallow", .arr (d.access.disallow.map Json.str))]),
     (str "agents", .obj (d.agents.map (fun kv => (kv.1, agentPolicyJson kv.2))))] ++
    (match d.metadata with
     | some md => [(str "metadata", .obj (md.map (fun kv => (kv.1, Json.str kv.2))))]
     | none => []))

/-- `generateJSON`: schema-validate the document, then serialize `result.data`
(the stripped payload).  `none` models the thrown `Invalid document` error;
`JSON.stringify` text formatting is abstracted to the emitted JSON value. -/
def generateJSON (doc : AgentsTxtDocument) : Option Json :=
  (zodDocument (documentJson doc)).map documentJson

-- ### `JSON.parse` (string → JSON value)

/-- JSON whitespace (`space`, `\t`, `\n`, `\r` — narrower than regex `\s`). -/
def jsonWsCh (c : Char) : Bool := c = ' ' || c = '\t' || c = '\n' || c = '\r'

/-- Decode a JSON string body after the opening quote; returns content and rest. -/
def jsonDecodeString : Nat → Str → Option (Str × Str)
  | 0, _ => none
  | _, [] => none
  | fuel + 1, c :: rest =>
    if c = '"' then some ([], rest)
    else if c = '\\' then
      match rest with
      | [] => none
      | e :: rest2 =>
        let decoded : Option (Char × Str) :=
          if e = '"' then some ('"', rest2)
          else if e = '\\' then some ('\\', rest2)
          else if e = '/' then some ('/', rest2)
          else if e = 'b' then some (Char.ofNat 8, rest2)
          else if e = 'f' then some (Char.ofNat 12, rest2)
          else if e = 'n' then some ('\n', rest2)
          else if e = 'r' then some ('\r', rest2)
          else if e = 't' then some ('\t', rest2)
          else if e = 'u' then
            match rest2 with
            | h1 :: h2 :: h3 :: h4 :: rest3 =>
              let hexVal (h : Char) : Option Nat :=
                if isDigitCh h then some (h.toNat - 48)
                else if 'a' ≤ h && h ≤ 'f' then some (h.toNat - 87)
                else if 'A' ≤ h && h ≤ 'F' then some (h.toNat - 55)
                else none
              match hexVal h1, hexVal h2, hexVal h3, hexVal h4 with
              | some a, some b, some c, some d =>
                some (Char.ofNat (((a * 16 + b) * 16 + c) * 16 + d), rest3)
              | _, _, _, _ => none
            | _ => none
          else none
        match decoded with
        | none => none
        | some (ch, r) =>
          match jsonDecodeString fuel r with
          | some (s, rest4) => some (ch :: s, rest4)
          | none => none
    else if c.toNat < 32 then none
    else
      match jsonDecodeString fuel rest with
      | some (s, rest4) => some (c :: s, rest4)
      | none => none

/-- Decode a JSON number starting at the current position. -/
def jsonDecodeNumber (l : Str) : Option (Rat × Str) :=
  let (neg, l1) := match l with
    | '-' :: r => (true, r)
    | _ => (false, l)
  let intPart := l1.takeWhile isDigitCh
  if intPart = [] then none
  else if 2 ≤ intPart.length && intPart.headD '0' = '0' then none
  else
    let l2 := l1.drop intPart.length
    let (fracPart, l3) := match l2 with
      | '.' :: r =>
        let f := r.takeWhile isDigitCh
        (f, r.drop f.length)
      | _ => ([], l2)
    if l2 ≠ [] && l2.headD ' ' = '.' && fracPart = [] then none
    else
      let (expOk, expNeg, expDigits, l4) := match l3 with
        | 'e' :: r | 'E' :: r =>
          let (en, r2) := match r with
            | '+' :: r3 => (false, r3)
            | '-' :: r3 => (true, r3)
            | _ => (false, r)
          let ds := r2.takeWhile isDigitCh
          (!ds.isEmpty, en, ds, r2.drop ds.length)
        | _ => (true, false, [], l3)
      if !expOk then none
      else
        let mantissa : Int := natOfDigits (intPart ++ fracPart)
        let mantissa := if neg then -mantissa else mantissa
        let e10 : Int := (if expNeg then -(natOfDigits expDigits : Int) else natOfDigits expDigits) -
          fracPart.length
        let q : Rat :=
          if 0 ≤ e10 then (mantissa : Rat) * ((10 : Rat) ^ e10.toNat)
          else (mantissa : Rat) / ((10 : Rat) ^ (-e10).toNat)
        some (q, l4)

/-- The decoder's pending task: a value, the members of an open object, or
the elements of an open array. -/
inductive JTask
  | value
  | members (acc : List (Str × Json))
  | elements (acc : List Json)

/-- The recursive-descent core of `JSON.parse`, fuel-structural so that it
reduces definitionally.  Object members accumulate with later duplicate keys
overwriting (JS object-literal semantics). -/
def jsonDecodeCore : Nat → JTask → Str → Option (Json × Str)
  | 0, _, _ => none
  | fuel + 1, .value, l =>
    match l with
    | [] => none
    | c :: rest =>
      if c = '"' then
        match jsonDecodeString (fuel + 1) rest with
        | some (s, r) => some (.str s, r)
        | none => none
      else if c = '{' then
        jsonDecodeCore fuel (.members []) (rest.dropWhile jsonWsCh)
      else if c = '[' then
        jsonDecodeCore fuel (.elements []) (rest.dropWhile jsonWsCh)
      else if c = 't' then
        if (str "rue").isPrefixOf rest then some (.bool true, rest.drop 3) else none
      else if c = 'f' then
        if (str "alse").isPrefixOf rest then some (.bool false, rest.drop 4) else none
      else if c = 'n' then
        if (str "ull").isPrefixOf rest then some (.null, rest.drop 3) else none
      else
        match jsonDecodeNumber (c :: rest) with
        | some (q, r) => some (.num q, r)
        | none => none
  | fuel + 1, .members acc, l =>
    match l with
    | '}' :: r => if acc.isEmpty then some (.obj [], r) else none
    | '"' :: r =>
      match jsonDecodeString (fuel + 1) r with
      | none => none
      | some (k, r2) =>
        match r2.dropWhile jsonWsCh with
        | ':' :: r3 =>
          match jsonDecodeCore fuel .value (r3.dropWhile jsonWsCh) with
          | none => none
          | some (v, r4) =>
            let acc := upsertAssoc acc k v
            match r4.dropWhile jsonWsCh with
            | ',' :: r5 =>
              match r5.dropWhile jsonWsCh with
              | '"' :: r6 => jsonDecodeCore fuel (.members acc) ('"' :: r6)
              | _ => none
            | '}' :: r5 => some (.obj acc, r5)
            | _ => none
        | _ => none
    | _ => none
  | fuel + 1, .elements acc, l =>
    match l with
    | ']' :: r => if acc.isEmpty then some (.arr [], r) else none
    | _ =>
      match jsonDecodeCore fuel .value l with
      | none => none
      | some (v, r) =>
        match r.dropWhile jsonWsCh with
        | ',' :: r2 => jsonDecodeCore fuel (.elements (acc ++ [v])) (r2.dropWhile jsonWsCh)
        | ']' :: r2 => some (.arr (acc ++ [v]), r2)
        | _ => none

/-- `JSON.parse`: decode a complete JSON text (the fuel covers the deepest
possible recursion chain, two steps per input character). -/
def jsonDecode (s : Str) : Option Json :=
  match jsonDecodeCore (2 * s.length + 4) .value (s.dropWhile jsonWsCh) with
  | some (v, rest) => if rest.dropWhile jsonWsCh = [] then some v else none
  | none => none

/-- `parseJSON` (`parser-json.ts`): size gate, `JSON.parse`, then the schema.
Error detail below the claim level (the engine's syntax-error message, the
per-issue field paths of a schema failure) is abstracted to one entry. -/
def parseJSON (input : Str) : ParseResult :=
  if MAX_INPUT_SIZE < input.length then
    ⟨false, none, [⟨none, none, str "Input exceeds maximum size of 1048576 bytes"⟩], []⟩
  else
    match jsonDecode input with
    | none => ⟨false, none, [⟨none, none, str "Invalid JSON: parse error"⟩], []⟩
    | some j =>
      match zodDocument j with
      | none => ⟨false, none, [⟨none, some [], str "Schema violation"⟩], []⟩
      | some doc => ⟨true, some doc, [], []⟩

-- ## The validator (`packages/core/src/validator.ts`)

/-- `ValidationError` / `ValidationWarning`. -/
structure VMsg where
  path : Str
  message : Str
  code : Str
deriving DecidableEq, Repr

/-- `ValidationResult`. -/
structure ValidationResult where
  valid : Bool
  errors : List VMsg
  warnings : List VMsg
deriving DecidableEq, Repr

/-- `validate`: schema conformance, duplicate capability ids, dangling agent
references, then HTTPS advisories (the schema failure's per-issue list is
abstracted to a single `SCHEMA_VIOLATION` entry; no claim inspects it). -/
def validate (doc : AgentsTxtDocument) : ValidationResult :=
  let schemaErrs : List VMsg :=
    if (zodDocument (documentJson doc)).isSome then []
    else [⟨[], str "Schema violation", str "SCHEMA_VIOLATION"⟩]
  let dupErrs : List VMsg :=
    (doc.capabilities.foldl
      (fun (acc : List Str × List VMsg) cap =>
        (acc.1 ++ (if acc.1.contains cap.id then [] else [cap.id]),
         acc.2 ++ (if acc.1.contains cap.id then
           [⟨str "capabilities." ++ cap.id,
             str "Duplicate capability ID: \"" ++ cap.id ++ str "\"",
             str "DUPLICATE_CAPABILITY"⟩] else [])))
      ([], [])).2
  let capIds := doc.capabilities.map (·.id)
  let danglingErrs : List VMsg :=
    doc.agents.flatMap (fun entry =>
      match entry.2.capabilities with
      | none => []
      | some caps => caps.filterMap (fun cid =>
          if capIds.contains cid then none
          else some ⟨str "agents." ++ entry.1 ++ str ".capabilities",
                     str "Agent \"" ++ entry.1 ++ str "\" references unknown capability: \"" ++
                       cid ++ str "\"",
                     str "UNKNOWN_CAPABILITY_REF"⟩))
  let siteWarns : List VMsg :=
    if doc.site.url ≠ [] && !((str "https://").isPrefixOf doc.site.url) then
      [⟨str "site.url", str "Site URL should use HTTPS", str "INSECURE_URL"⟩]
    else []
  let epWarns : List VMsg :=
    doc.capabilities.filterMap (fun cap =>
      if cap.endpoint ≠ [] && !((str "https://").isPrefixOf cap.endpoint) then
        some ⟨str "capabilities." ++ cap.id ++ str ".endpoint",
              str "Capability \"" ++ cap.id ++ str "\" endpoint should use HTTPS",
              str "INSECURE_ENDPOINT"⟩
      else none)
  let errors := schemaErrs ++ dupErrs ++ danglingErrs
  ⟨errors.isEmpty, errors, siteWarns ++ epWarns⟩

-- ## The discovery client (the `AgentsTxtClient` variant with `validateUrl`)

/-- `baseUrl.replace(/\/+$/, "")`. -/
def stripTrailingSlashes (l : Str) : Str := (l.reverse.dropWhile (· = '/')).reverse

/-- `validateUrl`: `none` iff the URL parses with an allowed scheme; otherwise
the error message of the exception it throws. -/
def validateUrl (url : Str) : Option Str :=
  match urlProtocolModel url with
  | none => some (str "Invalid URL: " ++ url)
  | some p =>
    if p = str "http:" || p = str "https:" then none
    else some (str "Unsupported URL scheme: " ++ p ++ str " (only http and https are allowed)")

/-- A discovery call either raises (caller error escaping `discover`) or
returns a `ParseResult`. -/
inductive ClientOutcome
  | raised (e : Str)
  | result (r : ParseResult)
deriving DecidableEq, Repr

/-- The network, abstracted: `fetchText`'s observable behavior per URL —
`some body` on a 2xx, size-acceptable response; `none` for any HTTP failure,
abort, timeout, or oversized body. -/
abbrev FetchOracle := Str → Option Str

/-- `discover`: scheme validation, then well-known path, then fallback path. -/
def discover (baseUrl : Str) (fetch : FetchOracle) : ClientOutcome :=
  match validateUrl baseUrl with
  | some e => .raised e
  | none =>
    let normalized := stripTrailingSlashes baseUrl
    match fetch (normalized ++ str "/.well-known/agents.txt") with
    | some body => .result (parse body)
    | none =>
      match fetch (normalized ++ str "/agents.txt") with
      | some body => .result (parse body)
      | none =>
        .result ⟨false, none,
          [⟨none, none, str "No agents.txt found at " ++ normalized⟩], []⟩

/-- `discoverJSON`: the same state machine over the JSON paths and parser. -/
def discoverJSON (baseUrl : Str) (fetch : FetchOracle) : ClientOutcome :=
  match validateUrl baseUrl with
  | some e => .raised e
  | none =>
    let normalized := stripTrailingSlashes baseUrl
    match fetch (normalized ++ str "/.well-known/agents.json") with
    | some body => .result (parseJSON body)
    | none =>
      match fetch (normalized ++ str "/agents.json") with
      | some body => .result (parseJSON body)
      | none =>
        .result ⟨false, none,
          [⟨none, none, str "No agents.json found at " ++ normalized⟩], []⟩

-- ## Derived/claim-level definitions

/-- `parseJSON(generateJSON(d))` at the document level: `JSON.parse` after
`JSON.stringify` is the identity on JSON values, so the composition is the
schema parse of the emitted JSON value. -/
def roundTripJSON (d : AgentsTxtDocument) : Option AgentsTxtDocument :=
  (generateJSON d).bind zodDocument

/-- A URL the client must refuse: no parseable scheme, or a scheme other than
`http`/`https`. -/
def badSchemeUrl (url : Str) : Bool :=
  match urlProtocolModel url with
  | none => true
  | some p => !(p = str "http:" || p = str "https:")

/-- A character outside the C0 range `0x00`–`0x1F` (the range `sanitizeValue`
removes; LF and CR are inside it). -/
def cleanChar (c : Char) : Bool := 31 < c.toNat

/-- A string free of C0 control characters. -/
def cleanStr (l : Str) : Bool := l.all cleanChar

/-- An optional string free of C0 control characters (`none` counts as clean). -/
def cleanOpt (o : Option Str) : Bool := cleanStr (o.getD [])

/-- An ASCII control byte in the sense of the specification (C0 or DEL). -/
def asciiCtl (c : Char) : Bool := c.toNat < 32 || c.toNat = 127

/-- Every string field reachable in a parsed document. -/
def authStrings (a : AuthConfig) : List Str :=
  [a.type] ++ (a.tokenEndpoint.map ([·])).getD [] ++ (a.docsUrl.map ([·])).getD [] ++
  (a.registrationEndpoint.map ([·])).getD [] ++ a.scopes.getD []

/-- The string fields of a parameter definition. -/
def paramStrings (p : ParameterDef) : List Str :=
  [p.name, p.type] ++ (p.description.map ([·])).getD []

/-- The string fields of a capability. -/
def capStrings (c : Capability) : List Str :=
  [c.id, c.description, c.endpoint] ++ (c.method.map ([·])).getD [] ++ [c.protocol] ++
  (c.auth.map authStrings).getD [] ++ (c.openapi.map ([·])).getD [] ++
  (c.parameters.getD []).flatMap paramStrings ++ c.scopes.getD []

/-- Every string field of a document. -/
def docStrings (d : AgentsTxtDocument) : List Str :=
  [d.specVersion] ++ (d.generatedAt.map ([·])).getD [] ++
  [d.site.name, d.site.url] ++ (d.site.description.map ([·])).getD [] ++
  (d.site.contact.map ([·])).getD [] ++ (d.site.privacyPolicy.map ([·])).getD [] ++
  d.capabilities.flatMap capStrings ++ d.access.allow ++ d.access.disallow ++
  d.agents.flatMap (fun e => e.1 :: (e.2.capabilities.getD [])) ++
  (d.metadata.getD []).flatMap (fun kv => [kv.1, kv.2])

/-- `s` sits in one of the sanitized free-text fields of `d` (site name,
site/capability/parameter descriptions, metadata values — the fields the
specification's sanitization property enumerates, plus the remaining
`sanitizeValue`-protected site fields). -/
def carriesFreeText (d : AgentsTxtDocument) (s : Str) : Bool :=
  s = d.site.name || d.site.description = some s ||
  d.capabilities.any (fun c => s = c.description ||
    (c.parameters.getD []).any (fun p => p.description = some s)) ||
  (d.metadata.getD []).any (fun kv => kv.2 = s)

/-- The fields `generate` emits WITHOUT `sanitizeValue` are control-free:
spec version, generated-at, parameter types, agent-policy capability lists,
and metadata keys. -/
def CleanStructured (d : AgentsTxtDocument) : Bool :=
  cleanStr d.specVersion && cleanOpt d.generatedAt &&
  d.capabilities.all (fun c => (c.parameters.getD []).all (fun p => cleanStr p.type)) &&
  d.agents.all (fun e => (e.2.capabilities.getD []).all cleanStr) &&
  (d.metadata.getD []).all (fun kv => cleanStr kv.1)

/-- Cleanliness of a partial capability (parse-invariant machinery). -/
def pcClean (pc : PartialCap) : Bool :=
  cleanStr pc.id && cleanOpt pc.description && cleanOpt pc.endpoint &&
  cleanOpt pc.method && cleanOpt pc.protocol &&
  (match pc.auth with
   | some a => (authStrings a).all cleanStr
   | none => true) &&
  cleanOpt pc.openapi &&
  (pc.parameters.getD []).all (fun p => (paramStrings p).all cleanStr) &&
  (pc.scopes.getD []).all cleanStr

/-- Cleanliness of an agent policy. -/
def policyClean (pol : AgentPolicy) : Bool :=
  (pol.capabilities.getD []).all cleanStr

/-- Cleanliness of the whole parser state (warnings/errors excluded — they do
not flow into the document). -/
def stateClean (st : PState) : Bool :=
  cleanStr st.specVersion && cleanOpt st.generatedAt &&
  cleanOpt st.siteName && cleanOpt st.siteUrl && cleanOpt st.siteDescription &&
  cleanOpt st.siteContact && cleanOpt st.sitePrivacyPolicy &&
  st.capabilities.all (fun c => (capStrings c).all cleanStr) &&
  st.allowPaths.all cleanStr && st.disallowPaths.all cleanStr &&
  st.agents.all (fun e => cleanStr e.1 && policyClean e.2) &&
  st.metadata.all (fun kv => cleanStr kv.1 && cleanStr kv.2) &&
  (match st.currentCapability with
   | some pc => pcClean pc
   | none => true) &&
  cleanOpt st.currentAgentName &&
  (match st.currentAgentPolicy with
   | some pol => policyClean pol
   | none => true)

-- ## Concrete inputs for the claims

/-- The document of the repository test `parses registrationEndpoint in auth
config`, as a runtime value (with `registrationEndpoint` present). -/
def c1doc : AgentsTxtDocument :=
  ⟨str "1.0", none,
   ⟨str "Test", str "https://test.com", none, none, none⟩,
   [⟨str "api", str "API", str "https://test.com/api", none, str "REST",
     some ⟨str "oauth2", some (str "https://test.com/oauth/token"), none,
           some (str "https://test.com/oauth/register"), none⟩,
     none, none, none, none⟩],
   ⟨[str "*"], []⟩,
   [(str "*", ⟨none, none⟩)], none⟩

/-- `c1doc` with the dynamic-registration endpoint dropped — what the schema
layer actually lets through. -/
def c1docStripped : AgentsTxtDocument :=
  ⟨str "1.0", none,
   ⟨str "Test", str "https://test.com", none, none, none⟩,
   [⟨str "api", str "API", str "https://test.com/api", none, str "REST",
     some ⟨str "oauth2", some (str "https://test.com/oauth/token"), none, none, none⟩,
     none, none, none, none⟩],
   ⟨[str "*"], []⟩,
   [(str "*", ⟨none, none⟩)], none⟩

/-- The JSON text of that repository test (same payload as `c1doc`). -/
def c1json : Str := str "\x7b\"specVersion\":\"1.0\",\"site\":\x7b\"name\":\"Test\",\"url\":\"https://test.com\"\x7d,\"capabilities\":[\x7b\"id\":\"api\",\"description\":\"API\",\"endpoint\":\"https://test.com/api\",\"protocol\":\"REST\",\"auth\":\x7b\"type\":\"oauth2\",\"tokenEndpoint\":\"https://test.com/oauth/token\",\"registrationEndpoint\":\"https://test.com/oauth/register\"\x7d\x7d],\"access\":\x7b\"allow\":[\"*\"],\"disallow\":[]\x7d,\"agents\":\x7b\"*\":\x7b\x7d\x7d\x7d"

/-- A document whose site name carries a DEL (`0x7F`) control byte — an ASCII
control byte `sanitizeValue` does NOT remove. -/
def c2doc : AgentsTxtDocument :=
  ⟨str "1.0", none,
   ⟨str "a\u007Fb", str "https://test.com", none, none, none⟩,
   [], ⟨[str "*"], []⟩, [(str "*", ⟨none, none⟩)], none⟩

/-- The DEL-carrying site name of `c2doc`. -/
def c2s : Str := str "a\u007Fb"

/-- A document whose site name tries to inject a forged `Capability:`
directive through an embedded newline. -/
def c2wdoc : AgentsTxtDocument :=
  ⟨str "1.0", none,
   ⟨str "evil\nCapability: hacked", str "https://test.com", none, none, none⟩,
   [], ⟨[str "*"], []⟩, [(str "*", ⟨none, none⟩)], none⟩

/-- The injection-attempt site name of `c2wdoc`. -/
def c2ws : Str := str "evil\nCapability: hacked"

/-- A 1 MB + 1 input. -/
def bigInput : Str := List.replicate 1048577 'a'

/-- The repository test document for the `wss://` carve-out (`makeValidDoc`
with a `wss://` endpoint). -/
def c5doc : AgentsTxtDocument :=
  ⟨str "1.0", none,
   ⟨str "Valid Store", str "https://valid.example.com", none, none, none⟩,
   [⟨str "search", str "Search", str "wss://valid.example.com/ws", none, str "REST",
     none, none, none, none, none⟩],
   ⟨[str "/api/*"], []⟩,
   [(str "*", ⟨none, none⟩)], none⟩

/-- The repository test input `parses hyphenated parameter names and types`. -/
def c6text : Str := str "\nSite-Name: Test\nSite-URL: https://test.com\n\nCapability: search\n  Endpoint: https://test.com/api/search\n  Protocol: REST\n  Param: content-type (header, string, required) — Content type header\n  Param: start-date (query, date-time) — Start date filter\n"

/-- A capability block carrying an `Auth:` value outside the closed enumeration. -/
def c7text : Str := str "Site-Name: Test\nSite-URL: https://test.com\n\nCapability: search\n  Endpoint: https://test.com/search\n  Protocol: REST\n  Auth: custom-scheme\n"

/-- `Rate-Limit: 0/minute` inside a capability block. -/
def c8capText : Str := str "Site-Name: Test\nSite-URL: https://test.com\n\nCapability: search\n  Endpoint: https://test.com/search\n  Protocol: REST\n  Rate-Limit: 0/minute\n"

/-- `Rate-Limit: 0/minute` inside an agent block. -/
def c8agentText : Str := str "Site-Name: Test\nSite-URL: https://test.com\n\nAgent: claude\n  Rate-Limit: 0/minute\n"

/-- The end-of-input flushing scenario from the specification (no trailing
newline). -/
def c9text : Str := str "Site-Name: Test\nSite-URL: https://test.com\n\nCapability: search\n  Endpoint: https://test.com/api/search\n  Protocol: REST"

/-- A `Capability:` directive with an empty identifier, followed by indented
fields. -/
def c10text : Str := str "Site-Name: Test\nSite-URL: https://test.com\n\nCapability:\n  Endpoint: https://test.com/api\n  Description: orphaned\n"

-- # Theorems

/-- C1: the claim says `parseJSON ∘ generateJSON` is the identity on every
schema-accepted document, preserving in particular the dynamic-registration
endpoint.  The code contradicts it (and its own test `parses
registrationEndpoint in auth config`): `AuthConfigSchema` declares no
`registrationEndpoint` key, so zod strips it — `parseJSON` on the repository
test's JSON drops the field, and the round trip maps `c1doc` to the strictly
smaller `c1docStripped`. -/
theorem c1_json_roundtrip_drops_registration_endpoint :
    (parseJSON c1json).document = some c1docStripped ∧
    c1doc.capabilities.map (fun c => c.auth.map AuthConfig.registrationEndpoint) =
      [some (some (str "https://test.com/oauth/register"))] ∧
    roundTripJSON c1doc = some c1docStripped ∧
    c1docStripped ≠ c1doc := by
  decide

/-- C2 (counterexample): the claim promises, for every string `s` carrying an
ASCII control byte placed in a free-text field, that re-parsing the generated
output never reconstructs `s`.  A DEL (`0x7F`) byte refutes it: `sanitizeValue`
strips only `0x00`–`0x1F`, so the site name `"a\x7Fb"` survives generation
verbatim and re-parsing reconstructs the exact original byte sequence. -/
theorem c2_del_byte_reconstructed :
    c2s.any asciiCtl = true ∧
    carriesFreeText c2doc c2s = true ∧
    ((parse (generate c2doc)).document.map (fun d => (docStrings d).contains c2s)) =
      some true := by
  decide

/-- C3: a base URL with no parseable scheme or a scheme other than
`http`/`https` makes `discover` and `discoverJSON` raise the `validateUrl`
error — the same outcome for every fetch oracle, hence before any network
request — and never return a discovery result (so it is distinct from the
"not found" `ParseResult`). -/
theorem c3_bad_scheme_raises_before_fetch (url : Str) (fetch : FetchOracle)
    (h : badSchemeUrl url = true) :
    ∃ e, validateUrl url = some e ∧
      discover url fetch = ClientOutcome.raised e ∧
      discoverJSON url fetch = ClientOutcome.raised e ∧
      ∀ r, discover url fetch ≠ ClientOutcome.result r ∧
           discoverJSON url fetch ≠ ClientOutcome.result r := by
  unfold badSchemeUrl at h
  have hval : ∃ e, validateUrl url = some e := by
    cases hu : urlProtocolModel url with
    | none => exact ⟨str "Invalid URL: " ++ url, by simp [validateUrl, hu]⟩
    | some p =>
      rw [hu] at h
      simp only [Bool.not_eq_true'] at h
      exact ⟨str "Unsupported URL scheme: " ++ p ++ str " (only http and https are allowed)",
        by simp [validateUrl, hu, h]⟩
  obtain ⟨e, he⟩ := hval
  refine ⟨e, he, ?_, ?_, fun r => ⟨?_, ?_⟩⟩ <;> simp [discover, discoverJSON, he]

/-- C3 (witness): `ftp://example.com` raises even against an oracle that would
answer every request. -/
theorem c3_bad_scheme_raises_before_fetch_witness :
    badSchemeUrl (str "ftp://example.com") = true ∧
    ∃ e, validateUrl (str "ftp://example.com") = some e ∧
      discover (str "ftp://example.com") (fun _ => some (str "ok")) = ClientOutcome.raised e ∧
      discoverJSON (str "ftp://example.com") (fun _ => some (str "ok")) = ClientOutcome.raised e ∧
      ∀ r, discover (str "ftp://example.com") (fun _ => some (str "ok")) ≠ ClientOutcome.result r ∧
           discoverJSON (str "ftp://example.com") (fun _ => some (str "ok")) ≠ ClientOutcome.result r :=
  ⟨by decide, c3_bad_scheme_raises_before_fetch (str "ftp://example.com")
    (fun _ => some (str "ok")) (by decide)⟩

/-- C4: any input longer than 1 MB makes both `parse` and `parseJSON` return
the hard size error with no document, no warnings and no other work — the
size gate is the first statement of both functions. -/
theorem c4_oversized_input_hard_error (input : Str) (h : MAX_INPUT_SIZE < input.length) :
    parse input =
      ⟨false, none, [⟨none, none, str "Input exceeds maximum size of 1048576 bytes"⟩], []⟩ ∧
    parseJSON input =
      ⟨false, none, [⟨none, none, str "Input exceeds maximum size of 1048576 bytes"⟩], []⟩ := by
  constructor
  · simp [parse, h]
  · simp [parseJSON, h]

/-- C4 (witness): a concrete 1048577-character input is rejected. -/
theorem c4_oversized_input_hard_error_witness :
    MAX_INPUT_SIZE < bigInput.length ∧
    parse bigInput =
      ⟨false, none, [⟨none, none, str "Input exceeds maximum size of 1048576 bytes"⟩], []⟩ := by
  have h : MAX_INPUT_SIZE < bigInput.length := by
    rw [bigInput, List.length_replicate]
    decide
  exact ⟨h, (c4_oversized_input_hard_error bigInput h).1⟩

/-- C5: the claim (and the repository test `does not warn on wss:// WebSocket
endpoints`) says `wss:` URLs are exempt from the insecure-transport warning.
The code has no such carve-out: `validate` checks `startsWith("https://")`
only, so the `wss://` endpoint of `c5doc` still gets `INSECURE_ENDPOINT`. -/
theorem c5_wss_endpoint_still_warned :
    validate c5doc =
      ⟨true, [],
       [⟨str "capabilities.search.endpoint",
         str "Capability \"search\" endpoint should use HTTPS",
         str "INSECURE_ENDPOINT"⟩]⟩ := by
  decide

/-- C6: the claim (and the repository tests) say hyphenated `name`/`type`
tokens and the `--` separator parse.  The regex in `parseParam` uses `\w+`
(no hyphen) and only the em-dash: all three repository-test inputs return
`null`, and the full test document parses with NO parameters and two
`Invalid parameter` warnings instead. -/
theorem c6_hyphenated_params_rejected :
    parseParam (str "content-type (header, string, required) — Content type header") = none ∧
    parseParam (str "start-date (query, date-time) — Start date filter") = none ∧
    parseParam (str "q (query, string, required) -- Search query") = none ∧
    (parse c6text).success = true ∧
    ((parse c6text).document.map (fun d => d.capabilities.map Capability.parameters)) =
      some [none] ∧
    ((parse c6text).warnings.map PMsg.field) = [some (str "Param"), some (str "Param")] := by
  decide

/-- C7 (counterexample): the claim says an unrecognized `Auth:` value is
stored verbatim alongside its warning.  Parsing a capability with
`Auth: custom-scheme` emits the warning but stores `type = "none"` — the
unrecognized string is discarded, refuting the "both fields" claim. -/
theorem c7_unknown_auth_discarded :
    (parse c7text).success = true ∧
    ((parse c7text).document.map
      (fun d => d.capabilities.map (fun c => c.auth.map AuthConfig.type))) =
      some [some (str "none")] ∧
    ((parse c7text).warnings.map (fun w => (w.field, w.message))) =
      [(some (str "Auth"), str "Unknown auth type: custom-scheme")] := by
  decide

/-- C8: the claim (and the repository test asserting an agent-block rate-limit
warning) says `0/minute` draws a warning in capability AND agent blocks.
`parseRateLimit` rejects it, and capability blocks do warn — but the agent
branch silently ignores the failure: `c8agentText` parses with NO warnings
and the agent's rate limit left unset. -/
theorem c8_zero_rate_limit_agent_silent :
    parseRateLimit (str "0/minute") = none ∧
    (parse c8capText).success = true ∧
    ((parse c8capText).warnings.map (fun w => (w.field, w.message))) =
      [(some (str "Rate-Limit"), str "Invalid rate limit: 0/minute")] ∧
    ((parse c8capText).document.map (fun d => d.capabilities.map Capability.rateLimit)) =
      some [none] ∧
    (parse c8agentText).success = true ∧
    (parse c8agentText).warnings = [] ∧
    ((parse c8agentText).document.map (fun d => d.agents.map (fun e => (e.1, e.2.rateLimit)))) =
      some [(str "claude", none)] := by
  decide

/-- C9: the specification's end-of-input scenario — no trailing blank line —
parses successfully with exactly one capability, `search`. -/
theorem c9_eof_block_flush :
    (parse c9text).success = true ∧
    ((parse c9text).document.map (fun d => d.capabilities.map Capability.id)) =
      some [str "search"] ∧
    (parse c9text).errors = [] := by
  decide

/-- C10: a `Capability:` block with an empty identifier is silently discarded:
`flushCapability` drops any open block whose `id` is empty, and the concrete
document with an empty-id block parses with zero capabilities, no errors and
no warnings. -/
theorem c10_empty_capability_id_discarded :
    (∀ (st : PState) (pc : PartialCap), st.currentCapability = some pc → pc.id = [] →
      flushCapability st = { st with currentCapability := none }) ∧
    (parse c10text).success = true ∧
    (parse c10text).warnings = [] ∧
    (parse c10text).errors = [] ∧
    ((parse c10text).document.map AgentsTxtDocument.capabilities) = some [] := by
  refine ⟨fun st pc hcur hid => ?_, by decide, by decide, by decide, by decide⟩
  unfold flushCapability
  rw [hcur]
  simp [hid]

/-- C10 (witness): the flush rule applied to a concrete state with an
empty-id open block. -/
theorem c10_empty_capability_id_discarded_witness :
    flushCapability { PState.init with currentCapability := some (PartialCap.make []) } =
      { PState.init with currentCapability := none } :=
  c10_empty_capability_id_discarded.1 _ (PartialCap.make []) rfl rfl

/-- A self-trimmed string is stable under both one-sided whitespace drops. -/
theorem trim_pieces {v : Str} (hv : trim v = v) :
    v.dropWhile jsWs = v ∧ v.reverse.dropWhile jsWs = v.reverse := by
  have hsub1 : List.Sublist (v.dropWhile jsWs) v := List.dropWhile_sublist jsWs
  have hsub2 : List.Sublist ((v.dropWhile jsWs).reverse.dropWhile jsWs)
      (v.dropWhile jsWs).reverse := List.dropWhile_sublist jsWs
  have hlen : v.length = ((v.dropWhile jsWs).reverse.dropWhile jsWs).length := by
    conv_lhs => rw [← hv]
    simp [trim]
  have l1 := hsub1.length_le
  have l2 := hsub2.length_le
  rw [List.length_reverse] at l2
  have e1 : v.dropWhile jsWs = v := hsub1.eq_of_length (by omega)
  refine ⟨e1, ?_⟩
  have h3 : trim v = (v.reverse.dropWhile jsWs).reverse := by rw [trim, e1]
  rw [hv] at h3
  have := congrArg List.reverse h3
  simpa using this.symm

/-- Appending a nonempty self-trimmed string protects the right end from trimming. -/
theorem trim_append_right {w v : Str} (hv : trim v = v) (hvne : v ≠ []) :
    ((w ++ v).reverse.dropWhile jsWs).reverse = w ++ v := by
  have h2 := (trim_pieces hv).2
  rw [List.reverse_append]
  cases hrv : v.reverse with
  | nil =>
    exact absurd (by simpa using congrArg List.reverse hrv) hvne
  | cons c cs =>
    have hc : jsWs c = false := by
      rw [hrv] at h2
      by_contra hcc
      simp only [Bool.not_eq_false] at hcc
      rw [List.dropWhile_cons, if_pos hcc] at h2
      have hl := (List.dropWhile_sublist (l := cs) jsWs).length_le
      rw [h2] at hl
      simp only [List.length_cons] at hl
      omega
    rw [List.cons_append, List.dropWhile_cons, if_neg (by simp [hc])]
    have hcast : c :: (cs ++ w.reverse) = (w ++ v).reverse := by
      rw [List.reverse_append, hrv]
      rfl
    rw [hcast, List.reverse_reverse]

/-- Trimming a line `a ++ v` whose leading-drop is `b ++ v` yields `b ++ v`
when `v` is nonempty and self-trimmed. -/
theorem trim_indented {a b : Str} (v : Str) (ha : (a ++ v).dropWhile jsWs = b ++ v)
    (hv : trim v = v) (hvne : v ≠ []) : trim (a ++ v) = b ++ v := by
  rw [trim, ha, trim_append_right hv hvne]

/-- The value extracted after `": "` is the raw value when already trimmed. -/
theorem trim_space_value {v : Str} (hv : trim v = v) : trim (' ' :: v) = v := by
  have h1 := (trim_pieces hv).1
  have h2 := (trim_pieces hv).2
  rw [trim]
  rw [List.dropWhile_cons, if_pos (by decide : jsWs ' ' = true), h1, h2, List.reverse_reverse]

/-- Inside a capability block, a `  Protocol: v` line dispatches to the
`Protocol` handler with exactly `v`. -/
theorem parseStep_protocol_line (st : PState) (pc : PartialCap) (n : Nat) (v : Str)
    (hst : st.state = .inCapability) (hcur : st.currentCapability = some pc)
    (hv : trim v = v) :
    parseStep st n (str "  Protocol: " ++ v) = capabilityFieldStep st pc n (str "Protocol") v := by
  by_cases hvne : v = []
  · subst hvne
    have hA : trim (str "  Protocol: " ++ ([] : Str)) = str "Protocol:" := by decide
    simp only [parseStep, hA]
    have hF : ((decide ((str "Protocol:") = ([] : Str))) ||
        (decide ((str "Protocol:").headD ' ' = '#'))) = false := by decide
    rw [hF]
    simp only [Bool.false_eq_true, if_false]
    have hE : ((str "  ").isPrefixOf (str "  Protocol: " ++ ([] : Str)) ||
        (str "\t").isPrefixOf (str "  Protocol: " ++ ([] : Str))) = true := by decide
    rw [dif_pos ⟨hE, hst, by rw [hcur]; rfl⟩]
    have hB : breakAt ':' (str "Protocol:") = some (str "Protocol", []) := by decide
    rw [hB]
    simp only [hcur, Option.get_some]
    have hD : trim (str "Protocol") = str "Protocol" := by decide
    have hD2 : trim ([] : Str) = [] := by decide
    rw [hD, hD2]
  · have hA : trim (str "  Protocol: " ++ v) = str "Protocol: " ++ v :=
      trim_indented v rfl hv hvne
    simp only [parseStep, hA]
    have hcons : str "Protocol: " ++ v = 'P' :: (str "rotocol: " ++ v) := rfl
    have hF : ((decide ((str "Protocol: " ++ v) = ([] : Str))) ||
        (decide ((str "Protocol: " ++ v).headD ' ' = '#'))) = false := by
      rw [hcons]
      simp
    rw [hF]
    simp only [Bool.false_eq_true, if_false]
    have hE : ((str "  ").isPrefixOf (str "  Protocol: " ++ v) ||
        (str "\t").isPrefixOf (str "  Protocol: " ++ v)) = true := by
      have : (str "  ").isPrefixOf (str "  Protocol: " ++ v) = true := rfl
      rw [this, Bool.true_or]
    rw [dif_pos ⟨hE, hst, by rw [hcur]; rfl⟩]
    have hB : breakAt ':' (str "Protocol: " ++ v) = some (str "Protocol", ' ' :: v) := rfl
    rw [hB]
    simp only [hcur, Option.get_some]
    have hD : trim (str "Protocol") = str "Protocol" := by decide
    rw [hD, trim_space_value hv]



/-- Inside a capability block, an `  Auth: v` line dispatches to the `Auth`
handler with exactly `v`. -/
theorem parseStep_auth_line (st : PState) (pc : PartialCap) (n : Nat) (v : Str)
    (hst : st.state = .inCapability) (hcur : st.currentCapability = some pc)
    (hv : trim v = v) :
    parseStep st n (str "  Auth: " ++ v) = capabilityFieldStep st pc n (str "Auth") v := by
  by_cases hvne : v = []
  · subst hvne
    have hA : trim (str "  Auth: " ++ ([] : Str)) = str "Auth:" := by decide
    simp only [parseStep, hA]
    have hF : ((decide ((str "Auth:") = ([] : Str))) ||
        (decide ((str "Auth:").headD ' ' = '#'))) = false := by decide
    rw [hF]
    simp only [Bool.false_eq_true, if_false]
    have hE : ((str "  ").isPrefixOf (str "  Auth: " ++ ([] : Str)) ||
        (str "\t").isPrefixOf (str "  Auth: " ++ ([] : Str))) = true := by decide
    rw [dif_pos ⟨hE, hst, by rw [hcur]; rfl⟩]
    have hB : breakAt ':' (str "Auth:") = some (str "Auth", []) := by decide
    rw [hB]
    simp only [hcur, Option.get_some]
    have hD : trim (str "Auth") = str "Auth" := by decide
    have hD2 : trim ([] : Str) = [] := by decide
    rw [hD, hD2]
  · have hA : trim (str "  Auth: " ++ v) = str "Auth: " ++ v :=
      trim_indented v rfl hv hvne
    simp only [parseStep, hA]
    have hcons : str "Auth: " ++ v = 'A' :: (str "uth: " ++ v) := rfl
    have hF : ((decide ((str "Auth: " ++ v) = ([] : Str))) ||
        (decide ((str "Auth: " ++ v).headD ' ' = '#'))) = false := by
      rw [hcons]
      simp
    rw [hF]
    simp only [Bool.false_eq_true, if_false]
    have hE : ((str "  ").isPrefixOf (str "  Auth: " ++ v) ||
        (str "\t").isPrefixOf (str "  Auth: " ++ v)) = true := by
      have h0 : (str "  ").isPrefixOf (str "  Auth: " ++ v) = true := rfl
      rw [h0, Bool.true_or]
    rw [dif_pos ⟨hE, hst, by rw [hcur]; rfl⟩]
    have hB : breakAt ':' (str "Auth: " ++ v) = some (str "Auth", ' ' :: v) := rfl
    rw [hB]
    simp only [hcur, Option.get_some]
    have hD : trim (str "Auth") = str "Auth" := by decide
    rw [hD, trim_space_value hv]

/-- C7 (amended): inside a capability block, a `Protocol:` value outside the
closed enumeration draws a warning AND is stored verbatim; an `Auth:` value
outside the closed enumeration draws a warning but is DISCARDED — the stored
auth type stays at its previous value (defaulting to `"none"`), not the given
string. -/
theorem c7_unknown_enum_handling_amended (st : PState) (pc : PartialCap) (n : Nat) (v : Str)
    (hst : st.state = .inCapability) (hcur : st.currentCapability = some pc)
    (hv : trim v = v) :
    (VALID_PROTOCOLS.contains v = false →
      parseStep st n (str "  Protocol: " ++ v) =
        { st with
          currentCapability := some { pc with protocol := some v },
          warnings := st.warnings ++
            [⟨some n, some (str "Protocol"), str "Unknown protocol: " ++ v⟩] }) ∧
    (VALID_AUTH_TYPES.contains v = false →
      parseStep st n (str "  Auth: " ++ v) =
        { st with
          currentCapability :=
            some { pc with auth := some (pc.auth.getD ⟨str "none", none, none, none, none⟩) },
          warnings := st.warnings ++
            [⟨some n, some (str "Auth"), str "Unknown auth type: " ++ v⟩] }) := by
  constructor
  · intro h
    rw [parseStep_protocol_line st pc n v hst hcur hv]
    unfold capabilityFieldStep
    rw [if_neg (by decide : ¬ (str "Protocol" = str "Endpoint"))]
    rw [if_neg (by decide : ¬ (str "Protocol" = str "Method"))]
    rw [if_pos (rfl : str "Protocol" = str "Protocol")]
    rw [h]
    simp only [Bool.false_eq_true, if_false]
  · intro h
    rw [parseStep_auth_line st pc n v hst hcur hv]
    unfold capabilityFieldStep
    rw [if_neg (by decide : ¬ (str "Auth" = str "Endpoint"))]
    rw [if_neg (by decide : ¬ (str "Auth" = str "Method"))]
    rw [if_neg (by decide : ¬ (str "Auth" = str "Protocol"))]
    rw [if_pos (rfl : str "Auth" = str "Auth")]
    rw [h]
    simp only [Bool.false_eq_true, if_false]

/-- C7 (witness): the amended behavior at `Protocol: gRPC` and
`Auth: custom-scheme` on a concrete open-capability state. -/
theorem c7_unknown_enum_handling_amended_witness :
    VALID_PROTOCOLS.contains (str "gRPC") = false ∧
    VALID_AUTH_TYPES.contains (str "custom-scheme") = false ∧
    parseStep ({ PState.init with state := .inCapability, currentCapability := some (PartialCap.make (str "x")) }) 1
        (str "  Protocol: " ++ str "gRPC") =
      ({ PState.init with state := .inCapability, currentCapability := some ({ PartialCap.make (str "x") with protocol := some (str "gRPC") }), warnings := [⟨some 1, some (str "Protocol"), str "Unknown protocol: " ++ str "gRPC"⟩] }) ∧
    parseStep ({ PState.init with state := .inCapability, currentCapability := some (PartialCap.make (str "x")) }) 1
        (str "  Auth: " ++ str "custom-scheme") =
      ({ PState.init with state := .inCapability, currentCapability := some ({ PartialCap.make (str "x") with auth := some ⟨str "none", none, none, none, none⟩ }), warnings := [⟨some 1, some (str "Auth"), str "Unknown auth type: " ++ str "custom-scheme"⟩] }) := by
  refine ⟨by decide, by decide, ?_, ?_⟩
  · exact (c7_unknown_enum_handling_amended _ (PartialCap.make (str "x")) 1 (str "gRPC") rfl rfl (by decide)).1 (by decide)
  · exact (c7_unknown_enum_handling_amended _ (PartialCap.make (str "x")) 1 (str "custom-scheme") rfl rfl (by decide)).2 (by decide)

-- ## The C2 sanitization invariant: cleanliness lemmas

theorem clean_of_subset {l m : Str} (hsub : ∀ a ∈ m, a ∈ l) (hl : cleanStr l = true) :
    cleanStr m = true := by
  rw [cleanStr, List.all_eq_true] at hl ⊢
  exact fun a ha => hl a (hsub a ha)

theorem mem_trim {a : Char} {l : Str} (h : a ∈ trim l) : a ∈ l := by
  rw [trim] at h
  rw [List.mem_reverse] at h
  have h2 := (List.dropWhile_sublist (l := (l.dropWhile jsWs).reverse) jsWs).subset h
  rw [List.mem_reverse] at h2
  exact (List.dropWhile_sublist jsWs).subset h2

theorem clean_trim {l : Str} (hl : cleanStr l = true) : cleanStr (trim l) = true :=
  clean_of_subset (fun _ ha => mem_trim ha) hl

theorem clean_append {a b : Str} : cleanStr (a ++ b) = (cleanStr a && cleanStr b) :=
  List.all_append

theorem clean_sanitizeWith (n : Nat) (v : Str) : cleanStr (sanitizeValueWith n v) = true := by
  rw [cleanStr, List.all_eq_true]
  intro c hc
  have h1 : c ∈ trim ((v.map fun c => if c = '\r' || c = '\n' then ' ' else c).filter
      (fun c => !(c.toNat ≤ 0x1f))) := (List.take_sublist _ _).subset hc
  have h2 := mem_trim h1
  have h3 := List.of_mem_filter h2
  simp only [Bool.not_eq_true', decide_eq_false_iff_not, not_le] at h3
  simpa [cleanChar] using h3

theorem clean_sanitize (v : Str) : cleanStr (sanitizeValue v) = true :=
  clean_sanitizeWith 500 v

theorem clean_digitCh (k : Nat) : cleanChar (digitCh k) = true := by
  unfold digitCh
  split_ifs <;> decide

theorem clean_natToStrAux (fuel n : Nat) (acc : Str)
    (hacc : cleanStr acc = true) : cleanStr (natToStrAux fuel n acc) = true := by
  induction fuel generalizing n acc with
  | zero => simpa [natToStrAux] using hacc
  | succ fuel ih =>
    rw [natToStrAux]
    have hd : cleanStr (digitCh (n % 10) :: acc) = true := by
      rw [cleanStr] at hacc
      rw [cleanStr, List.all_cons, hacc, clean_digitCh]
      rfl
    split
    · exact hd
    · exact ih _ _ hd

theorem clean_natToStr (n : Nat) : cleanStr (natToStr n) = true := by
  unfold natToStr
  exact clean_natToStrAux (n + 1) n [] rfl

theorem clean_windowStr (w : RateLimitWindow) : cleanStr w.toStr = true := by
  cases w <;> decide

theorem clean_formatRateLimit (n : Nat) (w : RateLimitWindow) :
    cleanStr (formatRateLimit n w) = true := by
  rw [formatRateLimit, clean_append, clean_natToStr]
  rw [show ('/' :: w.toStr : Str) = [('/' : Char)] ++ w.toStr from rfl, clean_append]
  rw [clean_windowStr]
  rfl

theorem clean_joinSep {sep : Str} {parts : List Str} (hsep : cleanStr sep = true)
    (hp : ∀ x ∈ parts, cleanStr x = true) : cleanStr (joinSep sep parts) = true := by
  induction parts with
  | nil => rfl
  | cons x xs ih =>
    cases xs with
    | nil => exact hp x (by simp)
    | cons y ys =>
      have hj : joinSep sep (x :: y :: ys) = x ++ sep ++ joinSep sep (y :: ys) := rfl
      rw [hj, clean_append, clean_append]
      rw [hp x (by simp), hsep, ih (fun z hz => hp z (List.mem_cons_of_mem x hz))]
      rfl

theorem dirty_not_mem {s : Str} {strs : List Str} (hs : cleanStr s = false)
    (hall : strs.all cleanStr = true) : s ∉ strs := by
  intro hmem
  rw [List.all_eq_true] at hall
  exact absurd (hall s hmem) (by simp [hs])

theorem dirty_not_infix {s line : Str} (hs : cleanStr s = false)
    (hline : cleanStr line = true) : ¬ List.IsInfix s line := by
  intro hinf
  have : cleanStr s = true := clean_of_subset (fun a ha => hinf.subset ha) hline
  simp [this] at hs

theorem splitLinesRN_cons_newline (rest : Str) :
    splitLinesRN ('\n' :: rest) = [] :: splitLinesRN rest := by
  cases rest with
  | nil => rfl
  | cons d rest2 => simp [splitLinesRN]

theorem splitLinesRN_cons_other {c : Char} (rest : Str) (hc1 : c ≠ '\n') (hc2 : c ≠ '\r') :
    splitLinesRN (c :: rest) = headCons c (splitLinesRN rest) := by
  cases rest with
  | nil => simp [splitLinesRN, headCons, hc1]
  | cons d rest2 => simp [splitLinesRN, hc1, hc2]

theorem cleanChar_ne_nl {c : Char} (hc : cleanChar c = true) : c ≠ '\n' ∧ c ≠ '\r' := by
  constructor <;> rintro rfl <;> simp [cleanChar] at hc

theorem splitLinesRN_append_clean {a : Str} (rest : Str) (ha : cleanStr a = true) :
    splitLinesRN (a ++ '\n' :: rest) = a :: splitLinesRN rest := by
  induction a with
  | nil => exact splitLinesRN_cons_newline rest
  | cons c a2 ih =>
    rw [cleanStr, List.all_cons, Bool.and_eq_true] at ha
    obtain ⟨hne1, hne2⟩ := cleanChar_ne_nl ha.1
    rw [List.cons_append, splitLinesRN_cons_other _ hne1 hne2, ih ha.2, headCons]

theorem splitLinesRN_join {ls : List Str} (h : ∀ l ∈ ls, cleanStr l = true) (hne : ls ≠ []) :
    splitLinesRN (joinSep (str "\n") ls ++ str "\n") = ls ++ [[]] := by
  induction ls with
  | nil => exact absurd rfl hne
  | cons x xs ih =>
    cases xs with
    | nil =>
      rw [joinSep]
      rw [show (str "\n" : Str) = ['\n'] from rfl]
      rw [splitLinesRN_append_clean [] (h x (by simp))]
      rfl
    | cons y ys =>
      have hj : joinSep (str "\n") (x :: y :: ys) =
          x ++ str "\n" ++ joinSep (str "\n") (y :: ys) := rfl
      rw [hj]
      have hassoc : (x ++ str "\n" ++ joinSep (str "\n") (y :: ys)) ++ str "\n" =
          x ++ '\n' :: (joinSep (str "\n") (y :: ys) ++ str "\n") := by
        simp [str]
      rw [hassoc, splitLinesRN_append_clean _ (h x (by simp))]
      rw [ih (fun z hz => h z (List.mem_cons_of_mem x hz)) (by simp)]
      rfl



theorem clean_paramLine {p : ParameterDef} (ht : cleanStr p.type = true) :
    cleanStr (paramLine p) = true := by
  have hparts : ∀ x ∈ [p.loc.toStr, p.type] ++
      (if p.required.getD false then [str "required"] else []), cleanStr x = true := by
    intro x hx
    simp only [List.mem_append, List.mem_cons, List.not_mem_nil, or_false] at hx
    rcases hx with (rfl | rfl) | hx
    · cases p.loc <;> decide
    · exact ht
    · split at hx
      · simp only [List.mem_cons, List.not_mem_nil, or_false] at hx
        subst hx
        decide
      · cases hx
  have h2 : cleanStr (joinSep (str ", ")
      ([p.loc.toStr, p.type] ++ (if p.required.getD false then [str "required"] else []))) = true :=
    clean_joinSep (by decide) hparts
  have hl1 : cleanStr (str "  Param: ") = true := by decide
  have hl2 : cleanStr (str " (") = true := by decide
  have hl3 : cleanStr (str ")") = true := by decide
  have hl4 : cleanStr (str " — ") = true := by decide
  rw [paramLine]
  split <;>
    simp only [clean_append, clean_sanitize, h2, hl1, hl2, hl3, hl4,
      Bool.and_true, Bool.true_and, Bool.and_self]

theorem clean_capLines_all {cap : Capability}
    (ht : (cap.parameters.getD []).all (fun p => cleanStr p.type) = true) :
    (capLines cap).all cleanStr = true := by
  obtain ⟨id, desc, ep, method, proto, auth, rl, oa, params, scopes⟩ := cap
  simp only at ht
  rw [capLines]
  simp only [List.all_append, Bool.and_eq_true]
  repeat' apply And.intro
  · simp only [List.all_cons, List.all_nil, clean_append, clean_sanitize,
      Bool.and_true, Bool.true_and]
    decide
  · split
    · simp only [List.all_cons, List.all_nil, clean_append, clean_sanitize,
        Bool.and_true, Bool.true_and]
      decide
    · rfl
  · simp only [List.all_cons, List.all_nil, clean_append, clean_sanitize,
      Bool.and_true, Bool.true_and]
    decide
  · cases auth with
    | none => rfl
    | some a =>
      simp only [List.all_append, Bool.and_eq_true]
      repeat' apply And.intro
      · simp only [List.all_cons, List.all_nil, clean_append, clean_sanitize,
          Bool.and_true, Bool.true_and]
        decide
      · split
        · simp only [List.all_cons, List.all_nil, clean_append, clean_sanitize,
            Bool.and_true, Bool.true_and]
          decide
        · rfl
      · split
        · simp only [List.all_cons, List.all_nil, clean_append, clean_sanitize,
            Bool.and_true, Bool.true_and]
          decide
        · rfl
      · cases a.scopes with
        | none => rfl
        | some sc =>
          simp only
          split
          · have hjoin : cleanStr (joinSep (str ", ") (sc.map sanitizeValue)) = true := by
              refine clean_joinSep (by decide) (fun x hx => ?_)
              obtain ⟨y, _, rfl⟩ := List.mem_map.1 hx
              exact clean_sanitize y
            simp only [List.all_cons, List.all_nil, clean_append, hjoin,
              Bool.and_true, Bool.true_and]
            decide
          · rfl
  · cases rl with
    | none => rfl
    | some r =>
      simp only [List.all_cons, List.all_nil, clean_append, clean_formatRateLimit,
        Bool.and_true, Bool.true_and]
      decide
  · split
    · simp only [List.all_cons, List.all_nil, clean_append, clean_sanitize,
        Bool.and_true, Bool.true_and]
      decide
    · rfl
  · split
    · simp only [List.all_cons, List.all_nil, clean_append, clean_sanitize,
        Bool.and_true, Bool.true_and]
      decide
    · rfl
  · cases params with
    | none => rfl
    | some ps =>
      simp only [Option.getD_some] at ht
      rw [List.all_eq_true] at ht ⊢
      intro x hx
      obtain ⟨p, hp, rfl⟩ := List.mem_map.1 hx
      exact clean_paramLine (ht p hp)
  · rfl

theorem clean_agentLines_all {entry : Str × AgentPolicy}
    (hc : (entry.2.capabilities.getD []).all cleanStr = true) :
    (agentLines entry).all cleanStr = true := by
  obtain ⟨name, pol⟩ := entry
  obtain ⟨rl, caps⟩ := pol
  simp only at hc
  rw [agentLines]
  simp only [List.all_append, Bool.and_eq_true]
  repeat' apply And.intro
  · simp only [List.all_cons, List.all_nil, clean_append, clean_sanitize,
      Bool.and_true, Bool.true_and]
    decide
  · cases rl with
    | none => rfl
    | some r =>
      simp only [List.all_cons, List.all_nil, clean_append, clean_formatRateLimit,
        Bool.and_true, Bool.true_and]
      decide
  · cases caps with
    | none => rfl
    | some cs =>
      simp only [Option.getD_some] at hc
      simp only
      split
      · have hjoin : cleanStr (joinSep (str ", ") cs) = true := by
          refine clean_joinSep (by decide) (fun x hx => ?_)
          rw [List.all_eq_true] at hc
          exact hc x hx
        simp only [List.all_cons, List.all_nil, clean_append, hjoin,
          Bool.and_true, Bool.true_and]
        decide
      · rfl



theorem clean_generateLines {d : AgentsTxtDocument} (hclean : CleanStructured d = true) :
    (generateLines d).all cleanStr = true := by
  rw [CleanStructured] at hclean
  simp only [Bool.and_eq_true] at hclean
  obtain ⟨⟨⟨⟨hsv, hga⟩, hcaps⟩, hagents⟩, hmd⟩ := hclean
  rw [generateLines]
  simp only [List.all_append, Bool.and_eq_true]
  repeat' apply And.intro
  · simp only [List.all_cons, List.all_nil, clean_append, hsv, Bool.and_true, Bool.true_and]
    decide
  · split
    · rw [cleanOpt] at hga
      simp only [List.all_cons, List.all_nil, clean_append, hga, Bool.and_true, Bool.true_and]
      decide
    · rfl
  · rfl
  · simp only [List.all_cons, List.all_nil, clean_append, clean_sanitize,
      Bool.and_true, Bool.true_and]
    decide
  · split
    · simp only [List.all_cons, List.all_nil, clean_append, clean_sanitize,
        Bool.and_true, Bool.true_and]
      decide
    · rfl
  · split
    · simp only [List.all_cons, List.all_nil, clean_append, clean_sanitize,
        Bool.and_true, Bool.true_and]
      decide
    · rfl
  · split
    · simp only [List.all_cons, List.all_nil, clean_append, clean_sanitize,
        Bool.and_true, Bool.true_and]
      decide
    · rfl
  · rfl
  · rw [List.all_eq_true]
    intro l hl
    rw [List.mem_flatMap] at hl
    obtain ⟨cap, hcm, hlc⟩ := hl
    rw [List.all_eq_true] at hcaps
    have := clean_capLines_all (hcaps cap hcm)
    rw [List.all_eq_true] at this
    exact this l hlc
  · rw [List.all_eq_true]
    intro l hl
    obtain ⟨p, _, rfl⟩ := List.mem_map.1 hl
    rw [clean_append, clean_sanitize]
    decide
  · rw [List.all_eq_true]
    intro l hl
    obtain ⟨p, _, rfl⟩ := List.mem_map.1 hl
    rw [clean_append, clean_sanitize]
    decide
  · rfl
  · rw [List.all_eq_true]
    intro l hl
    rw [List.mem_flatMap] at hl
    obtain ⟨entry, hem, hle⟩ := hl
    rw [List.all_eq_true] at hagents
    have := clean_agentLines_all (hagents entry hem)
    rw [List.all_eq_true] at this
    exact this l hle
  · rfl
  · cases hmdv : d.metadata with
    | none => rfl
    | some md =>
      rw [hmdv] at hmd
      simp only [Option.getD_some] at hmd
      rw [List.all_eq_true] at hmd ⊢
      intro l hl
      obtain ⟨kv, hkv, rfl⟩ := List.mem_map.1 hl
      rw [clean_append, clean_append, clean_sanitize]
      have := hmd kv hkv
      simp only at this
      rw [this]
      decide



theorem breakAt_subset {ch : Char} {l a b : Str} (h : breakAt ch l = some (a, b)) :
    (∀ x ∈ a, x ∈ l) ∧ (∀ x ∈ b, x ∈ l) := by
  induction l generalizing a with
  | nil => cases h
  | cons c rest ih =>
    rw [breakAt] at h
    split at h
    · cases h
      exact ⟨fun x hx => absurd hx (List.not_mem_nil x), fun x hx => List.mem_cons_of_mem c hx⟩
    · split at h
      · cases h
      · rename_i a0b0 heq
        cases h
        obtain ⟨ha0, hb0⟩ := ih heq
        constructor
        · intro x hx
          rcases List.mem_cons.1 hx with rfl | hx2
          · exact List.mem_cons_self x rest
          · exact List.mem_cons_of_mem c (ha0 x hx2)
        · exact fun x hx => List.mem_cons_of_mem c (hb0 x hx)

theorem splitOnComma_subset {l : Str} : ∀ p ∈ splitOnComma l, ∀ x ∈ p, x ∈ l := by
  induction l with
  | nil =>
    intro p hp x hx
    simp only [splitOnComma, List.mem_cons, List.not_mem_nil, or_false] at hp
    subst hp
    cases hx
  | cons c rest ih =>
    intro p hp x hx
    rw [splitOnComma] at hp
    split at hp
    · rcases List.mem_cons.1 hp with rfl | hp2
      · cases hx
      · exact List.mem_cons_of_mem c (ih p hp2 x hx)
    · rename_i hc
      rcases hrec : splitOnComma rest with _ | ⟨q, qs⟩
      · rw [hrec] at hp
        simp only [List.mem_cons, List.not_mem_nil, or_false] at hp
        subst hp
        simp only [List.mem_cons, List.not_mem_nil, or_false] at hx
        subst hx
        exact List.mem_cons_self x rest
      · rw [hrec] at hp
        rcases List.mem_cons.1 hp with rfl | hp2
        · rcases List.mem_cons.1 hx with rfl | hx2
          · exact List.mem_cons_self x rest
          · exact List.mem_cons_of_mem c (ih q (by rw [hrec]; exact List.mem_cons_self q qs) x hx2)
        · exact List.mem_cons_of_mem c (ih p (by rw [hrec]; exact List.mem_cons_of_mem q hp2) x hx)

theorem clean_splitCommaTrim {v : Str} (hv : cleanStr v = true) :
    ∀ p ∈ splitCommaTrim v, cleanStr p = true := by
  intro p hp
  rw [splitCommaTrim] at hp
  obtain ⟨q, hq, rfl⟩ := List.mem_map.1 hp
  exact clean_trim (clean_of_subset (splitOnComma_subset q hq) hv)

theorem ciDrop_subset {p l r : Str} (h : ciDrop p l = some r) : ∀ x ∈ r, x ∈ l := by
  induction p generalizing l with
  | nil =>
    rw [ciDrop] at h
    cases h
    exact fun x hx => hx
  | cons pc ps ih =>
    cases l with
    | nil => cases h
    | cons c cs =>
      rw [ciDrop] at h
      split at h
      · exact fun x hx => List.mem_cons_of_mem c (ih h x hx)
      · cases h

theorem clean_matchHashDirective {kw t v : Str} (h : matchHashDirective kw t = some v)
    (ht : cleanStr t = true) : cleanStr v = true := by
  unfold matchHashDirective at h
  split at h
  · rename_i rest
    split at h
    · cases h
    · rename_i afterKw hcd
      split at h
      · rename_i tail
        split at h
        · cases h
        · cases h
          refine clean_trim (clean_of_subset ?_ ht)
          intro x hx
          have h1 : x ∈ ':' :: tail := List.mem_cons_of_mem ':' hx
          have h2 := ciDrop_subset hcd x h1
          have h3 := (List.dropWhile_sublist jsWs).subset h2
          exact List.mem_cons_of_mem '#' h3
      · cases h
  · cases h



theorem clean_upperCh {c : Char} (hc : cleanChar c = true) :
    cleanChar (if 'a' ≤ c && c ≤ 'z' then Char.ofNat (c.toNat - 32) else c) = true := by
  split
  · rename_i hrange
    rw [Bool.and_eq_true] at hrange
    have hge : 97 ≤ c.toNat := by simpa [Char.le_def] using hrange.1
    have hle : c.toNat ≤ 122 := by simpa [Char.le_def] using hrange.2
    have : (Char.ofNat (c.toNat - 32)).toNat = c.toNat - 32 := by
      rw [Char.ofNat, dif_pos (by constructor; omega)]
      rfl
    rw [cleanChar, this]
    simp only [decide_eq_true_eq]
    omega
  · exact hc

theorem clean_toUpper {l : Str} (hl : cleanStr l = true) :
    cleanStr (toUpperAscii l) = true := by
  rw [cleanStr, List.all_eq_true] at hl ⊢
  intro c hc
  rw [toUpperAscii] at hc
  obtain ⟨c0, hc0, rfl⟩ := List.mem_map.1 hc
  exact clean_upperCh (hl c0 hc0)


theorem mem_of_dropWhile_drop {n : Nat} {l r : Str} {c : Char}
    (heq : List.dropWhile jsWs (List.drop n l) = c :: r) : ∀ x ∈ r, x ∈ l := by
  intro x hx
  have h1 : x ∈ List.dropWhile jsWs (List.drop n l) := by
    rw [heq]
    exact List.mem_cons_of_mem c hx
  exact (List.drop_subset n l) ((List.dropWhile_sublist jsWs).subset h1)

theorem clean_parseParam {v : Str} {pd : ParameterDef} (h : parseParam v = some pd)
    (hv : cleanStr v = true) : (paramStrings pd).all cleanStr = true := by
  simp only [parseParam] at h
  split at h
  · cases h
  · rename_i hname
    split at h
    · rename_i r1 heqr1
      split at h
      · cases h
      · rename_i hloc
        split at h
        · rename_i r3 heqr3
          split at h
          · cases h
          · rename_i htyp
            split at h
            · cases h
            · rename_i req rest hAfter
              split at h
              · cases h
              · rename_i description hDesc
                split at h
                · cases h
                · rename_i loc hLoc
                  cases h
                  -- subset chains
                  have hr1 : ∀ x ∈ r1, x ∈ v := by
                    intro x hx
                    exact mem_of_dropWhile_drop heqr1 x hx
                  have hr3 : ∀ x ∈ r3, x ∈ v := by
                    intro x hx
                    have h2 := mem_of_dropWhile_drop heqr3 x hx
                    exact hr1 x ((List.dropWhile_sublist jsWs).subset h2)
                  have hname2 : cleanStr (List.takeWhile isWordCh v) = true :=
                    clean_of_subset (fun x hx => (List.takeWhile_sublist isWordCh).subset hx) hv
                  have hr4sub : ∀ x ∈ List.dropWhile jsWs r3, x ∈ v :=
                    fun x hx => hr3 x ((List.dropWhile_sublist jsWs).subset hx)
                  have htyp2 : cleanStr (List.takeWhile isWordCh (List.dropWhile jsWs r3)) = true :=
                    clean_of_subset
                      (fun x hx => hr4sub x ((List.takeWhile_sublist isWordCh).subset hx)) hv
                  have hrest : ∀ x ∈ rest, x ∈ v := by
                    -- rest comes from the afterParen match on r5
                    split at hAfter
                    · rename_i r6 heqr5
                      cases hAfter
                      intro x hx
                      have h2 : x ∈ List.dropWhile jsWs
                          (List.drop (List.takeWhile isWordCh (List.dropWhile jsWs r3)).length
                            (List.dropWhile jsWs r3)) := by
                        rw [heqr5]
                        exact List.mem_cons_of_mem ')' hx
                      have h3 := (List.dropWhile_sublist jsWs).subset h2
                      have h4 := (List.drop_subset _ _) h3
                      exact hr4sub x h4
                    · rename_i r6 heqr5
                      split at hAfter
                      · split at hAfter
                        · rename_i r8 heqr8
                          cases hAfter
                          intro x hx
                          have h2 : x ∈ List.dropWhile jsWs (List.drop 8 (List.dropWhile jsWs r6)) := by
                            rw [heqr8]
                            exact List.mem_cons_of_mem ')' hx
                          have h3 := (List.dropWhile_sublist jsWs).subset h2
                          have h4 := (List.drop_subset _ _) h3
                          have h5 := (List.dropWhile_sublist jsWs).subset h4
                          have h6 : x ∈ List.dropWhile jsWs
                              (List.drop (List.takeWhile isWordCh (List.dropWhile jsWs r3)).length
                                (List.dropWhile jsWs r3)) := by
                            rw [heqr5]
                            exact List.mem_cons_of_mem ',' h5
                          have h7 := (List.dropWhile_sublist jsWs).subset h6
                          exact hr4sub x ((List.drop_subset _ _) h7)
                        · cases hAfter
                      · cases hAfter
                    · cases hAfter
                  have hdesc : ∀ s, description = some s → cleanStr s = true := by
                    intro s hs
                    split at hDesc
                    · cases hDesc
                      cases hs
                    · split at hDesc
                      · rename_i r9 heqr9
                        split at hDesc
                        · cases hDesc
                        · cases hDesc
                          cases hs
                          refine clean_trim (clean_of_subset ?_ hv)
                          intro x hx
                          have h2 : x ∈ List.dropWhile jsWs rest := by
                            rw [heqr9]
                            exact List.mem_cons_of_mem '—' hx
                          exact hrest x ((List.dropWhile_sublist jsWs).subset h2)
                      · cases hDesc
                  rw [paramStrings]
                  simp only [List.all_append, List.all_cons, List.all_nil, Bool.and_eq_true,
                    Bool.and_true]
                  refine ⟨⟨hname2, htyp2⟩, ?_⟩
                  cases hd : description with
                  | none => rfl
                  | some s =>
                    have hs := hdesc s hd
                    show (cleanStr s && true) = true
                    rw [hs]
                    rfl
        · cases h
    · cases h

theorem upsertAssoc_all {α : Type} {P : Str × α → Bool} {m : List (Str × α)}
    (hm : m.all P = true) {k : Str} {v : α} (hkv : P (k, v) = true) :
    (upsertAssoc m k v).all P = true := by
  induction m with
  | nil => simpa [upsertAssoc] using hkv
  | cons kv0 rest ih =>
    obtain ⟨k0, v0⟩ := kv0
    rw [List.all_cons, Bool.and_eq_true] at hm
    rw [upsertAssoc]
    split
    · rename_i heq
      rw [List.all_cons, Bool.and_eq_true]
      subst heq
      exact ⟨hkv, hm.2⟩
    · rw [List.all_cons, Bool.and_eq_true]
      exact ⟨hm.1, ih hm.2⟩

theorem stateClean_upd_cap {st : PState} {pc : PartialCap} {w : List PMsg}
    (hst : stateClean st = true) (hpc : pcClean pc = true) :
    stateClean { st with currentCapability := some pc, warnings := w } = true := by
  simp only [stateClean, Bool.and_eq_true] at hst ⊢
  tauto

theorem stateClean_upd_cap2 {st : PState} {pc : PartialCap}
    (hst : stateClean st = true) (hpc : pcClean pc = true) :
    stateClean { st with currentCapability := some pc } = true := by
  simp only [stateClean, Bool.and_eq_true] at hst ⊢
  tauto

theorem stateClean_upd_warnings {st : PState} {w : List PMsg}
    (hst : stateClean st = true) :
    stateClean { st with warnings := w } = true := by
  simp only [stateClean, Bool.and_eq_true] at hst ⊢
  tauto

theorem authClean_upd_type {a : AuthConfig} {v : Str}
    (ha : (authStrings a).all cleanStr = true) (hv : cleanStr v = true) :
    (authStrings { a with type := v }).all cleanStr = true := by
  obtain ⟨ty, te, du, re, sc⟩ := a
  simp only [authStrings, List.all_append, List.all_cons, List.all_nil,
    Option.map_some', Option.getD_some, Bool.and_eq_true, Bool.and_true] at ha ⊢
  tauto

theorem authClean_upd_te {a : AuthConfig} {v : Str}
    (ha : (authStrings a).all cleanStr = true) (hv : cleanStr v = true) :
    (authStrings { a with tokenEndpoint := some v }).all cleanStr = true := by
  obtain ⟨ty, te, du, re, sc⟩ := a
  simp only [authStrings, List.all_append, List.all_cons, List.all_nil,
    Option.map_some', Option.getD_some, Bool.and_eq_true, Bool.and_true] at ha ⊢
  tauto

theorem authClean_upd_du {a : AuthConfig} {v : Str}
    (ha : (authStrings a).all cleanStr = true) (hv : cleanStr v = true) :
    (authStrings { a with docsUrl := some v }).all cleanStr = true := by
  obtain ⟨ty, te, du, re, sc⟩ := a
  simp only [authStrings, List.all_append, List.all_cons, List.all_nil,
    Option.map_some', Option.getD_some, Bool.and_eq_true, Bool.and_true] at ha ⊢
  tauto

theorem authClean_upd_re {a : AuthConfig} {v : Str}
    (ha : (authStrings a).all cleanStr = true) (hv : cleanStr v = true) :
    (authStrings { a with registrationEndpoint := some v }).all cleanStr = true := by
  obtain ⟨ty, te, du, re, sc⟩ := a
  simp only [authStrings, List.all_append, List.all_cons, List.all_nil,
    Option.map_some', Option.getD_some, Bool.and_eq_true, Bool.and_true] at ha ⊢
  tauto

theorem authClean_upd_scopes {a : AuthConfig} {sc2 : List Str}
    (ha : (authStrings a).all cleanStr = true) (hsc : sc2.all cleanStr = true) :
    (authStrings { a with scopes := some sc2 }).all cleanStr = true := by
  obtain ⟨ty, te, du, re, sc⟩ := a
  simp only [authStrings, List.all_append, List.all_cons, List.all_nil,
    Option.map_some', Option.getD_some, Bool.and_eq_true, Bool.and_true] at ha ⊢
  tauto

theorem clean_auth_getD {pc : PartialCap} (hpc : pcClean pc = true) {w : Str}
    (hw : cleanStr w = true) :
    (authStrings (pc.auth.getD ⟨w, none, none, none, none⟩)).all cleanStr = true := by
  cases ha : pc.auth with
  | none =>
    simp only [Option.getD_none]
    simp [authStrings, hw]
  | some a =>
    simp only [Option.getD_some]
    rw [pcClean] at hpc
    simp only [Bool.and_eq_true] at hpc
    obtain ⟨⟨⟨⟨h1, h2⟩, h3⟩, h4⟩, h5⟩ := hpc
    rw [ha] at h2
    exact h2

theorem pc_upd_description {pc : PartialCap} {v : Str} (hpc : pcClean pc = true)
    (hv : cleanStr v = true) : pcClean { pc with description := some v } = true := by
  obtain ⟨i, d, e, m, p, a, r, o, ps, sc⟩ := pc
  simp only [pcClean, cleanOpt, Option.getD_some, Bool.and_eq_true] at hpc ⊢
  tauto

theorem pc_upd_endpoint {pc : PartialCap} {v : Str} (hpc : pcClean pc = true)
    (hv : cleanStr v = true) : pcClean { pc with endpoint := some v } = true := by
  obtain ⟨i, d, e, m, p, a, r, o, ps, sc⟩ := pc
  simp only [pcClean, cleanOpt, Option.getD_some, Bool.and_eq_true] at hpc ⊢
  tauto

theorem pc_upd_method {pc : PartialCap} {v : Str} (hpc : pcClean pc = true)
    (hv : cleanStr v = true) : pcClean { pc with method := some v } = true := by
  obtain ⟨i, d, e, m, p, a, r, o, ps, sc⟩ := pc
  simp only [pcClean, cleanOpt, Option.getD_some, Bool.and_eq_true] at hpc ⊢
  tauto

theorem pc_upd_protocol {pc : PartialCap} {v : Str} (hpc : pcClean pc = true)
    (hv : cleanStr v = true) : pcClean { pc with protocol := some v } = true := by
  obtain ⟨i, d, e, m, p, a, r, o, ps, sc⟩ := pc
  simp only [pcClean, cleanOpt, Option.getD_some, Bool.and_eq_true] at hpc ⊢
  tauto

theorem pc_upd_openapi {pc : PartialCap} {v : Str} (hpc : pcClean pc = true)
    (hv : cleanStr v = true) : pcClean { pc with openapi := some v } = true := by
  obtain ⟨i, d, e, m, p, a, r, o, ps, sc⟩ := pc
  simp only [pcClean, cleanOpt, Option.getD_some, Bool.and_eq_true] at hpc ⊢
  tauto

theorem pc_upd_auth {pc : PartialCap} {a : AuthConfig} (hpc : pcClean pc = true)
    (ha : (authStrings a).all cleanStr = true) :
    pcClean { pc with auth := some a } = true := by
  obtain ⟨i, d, e, m, p, a0, r, o, ps, sc⟩ := pc
  simp only [pcClean, cleanOpt, Bool.and_eq_true] at hpc ⊢
  tauto

theorem pc_upd_rateLimit {pc : PartialCap} {rl : RateLimit} (hpc : pcClean pc = true) :
    pcClean { pc with rateLimit := some rl } = true := by
  obtain ⟨i, d, e, m, p, a, r, o, ps, sc⟩ := pc
  simp only [pcClean, cleanOpt, Bool.and_eq_true] at hpc ⊢
  tauto

theorem pc_upd_params {pc : PartialCap} {pd : ParameterDef} (hpc : pcClean pc = true)
    (hpd : (paramStrings pd).all cleanStr = true) :
    pcClean { pc with parameters := some (pc.parameters.getD [] ++ [pd]) } = true := by
  obtain ⟨i, d, e, m, p, a, r, o, ps, sc⟩ := pc
  simp only [pcClean, cleanOpt, Option.getD_some, Bool.and_eq_true, and_assoc] at hpc ⊢
  obtain ⟨c1, c2, c3, c4, c5, c6, c7, c8, c9⟩ := hpc
  refine ⟨c1, c2, c3, c4, c5, c6, c7, ?_, c9⟩
  simp only [List.all_append, List.all_cons, List.all_nil, Bool.and_eq_true, Bool.and_true]
  exact ⟨c8, hpd⟩

theorem capabilityFieldStep_clean {st : PState} {pc : PartialCap} {n : Nat} {key value : Str}
    (hst : stateClean st = true) (hpc : pcClean pc = true) (hvalue : cleanStr value = true) :
    stateClean (capabilityFieldStep st pc n key value) = true := by
  rw [capabilityFieldStep]
  by_cases h1 : key = str "Endpoint"
  · rw [if_pos h1]
    exact stateClean_upd_cap2 hst (pc_upd_endpoint hpc hvalue)
  rw [if_neg h1]
  by_cases h2 : key = str "Method"
  · rw [if_pos h2]
    exact stateClean_upd_cap2 hst (pc_upd_method hpc (clean_toUpper hvalue))
  rw [if_neg h2]
  by_cases h3 : key = str "Protocol"
  · rw [if_pos h3]
    by_cases hv3 : VALID_PROTOCOLS.contains value = true
    · rw [if_pos hv3]
      exact stateClean_upd_cap2 hst (pc_upd_protocol hpc hvalue)
    · rw [if_neg hv3]
      exact stateClean_upd_cap hst (pc_upd_protocol hpc hvalue)
  rw [if_neg h3]
  by_cases h4 : key = str "Auth"
  · rw [if_pos h4]
    by_cases hv4 : VALID_AUTH_TYPES.contains value = true
    · rw [if_pos hv4]
      exact stateClean_upd_cap2 hst
        (pc_upd_auth hpc (authClean_upd_type (clean_auth_getD hpc (by decide)) hvalue))
    · rw [if_neg hv4]
      exact stateClean_upd_cap hst (pc_upd_auth hpc (clean_auth_getD hpc (by decide)))
  rw [if_neg h4]
  by_cases h5 : key = str "Auth-Endpoint"
  · rw [if_pos h5]
    exact stateClean_upd_cap2 hst
      (pc_upd_auth hpc (authClean_upd_te (clean_auth_getD hpc (by decide)) hvalue))
  rw [if_neg h5]
  by_cases h6 : key = str "Auth-Docs"
  · rw [if_pos h6]
    exact stateClean_upd_cap2 hst
      (pc_upd_auth hpc (authClean_upd_du (clean_auth_getD hpc (by decide)) hvalue))
  rw [if_neg h6]
  by_cases h7 : key = str "Registration-Endpoint"
  · rw [if_pos h7]
    exact stateClean_upd_cap2 hst
      (pc_upd_auth hpc (authClean_upd_re (clean_auth_getD hpc (by decide)) hvalue))
  rw [if_neg h7]
  by_cases h8 : key = str "Scopes"
  · rw [if_pos h8]
    refine stateClean_upd_cap2 hst
      (pc_upd_auth hpc (authClean_upd_scopes (clean_auth_getD hpc (by decide)) ?_))
    rw [List.all_eq_true]
    exact fun p hp => clean_splitCommaTrim hvalue p hp
  rw [if_neg h8]
  by_cases h9 : key = str "Rate-Limit"
  · rw [if_pos h9]
    rcases hrl : parseRateLimit value with _ | rl
    · exact stateClean_upd_warnings hst
    · exact stateClean_upd_cap2 hst (pc_upd_rateLimit hpc)
  rw [if_neg h9]
  by_cases h10 : key = str "Description"
  · rw [if_pos h10]
    exact stateClean_upd_cap2 hst (pc_upd_description hpc hvalue)
  rw [if_neg h10]
  by_cases h11 : key = str "OpenAPI"
  · rw [if_pos h11]
    exact stateClean_upd_cap2 hst (pc_upd_openapi hpc hvalue)
  rw [if_neg h11]
  by_cases h12 : key = str "Param"
  · rw [if_pos h12]
    rcases hpp : parseParam value with _ | pd
    · exact stateClean_upd_warnings hst
    · exact stateClean_upd_cap2 hst (pc_upd_params hpc (clean_parseParam hpp hvalue))
  rw [if_neg h12]
  exact stateClean_upd_warnings hst

theorem stateClean_cap_of {st : PState} {pc : PartialCap} (hst : stateClean st = true)
    (hc : st.currentCapability = some pc) : pcClean pc = true := by
  simp only [stateClean, Bool.and_eq_true, and_assoc] at hst
  obtain ⟨-, -, -, -, -, -, -, -, -, -, -, -, h13, -, -⟩ := hst
  rw [hc] at h13
  exact h13

theorem stateClean_pol_of {st : PState} {pol : AgentPolicy} (hst : stateClean st = true)
    (hc : st.currentAgentPolicy = some pol) : policyClean pol = true := by
  simp only [stateClean, Bool.and_eq_true, and_assoc] at hst
  obtain ⟨-, -, -, -, -, -, -, -, -, -, -, -, -, -, h15⟩ := hst
  rw [hc] at h15
  exact h15

theorem stateClean_upd_pol {st : PState} {pol : AgentPolicy}
    (hst : stateClean st = true) (hpol : policyClean pol = true) :
    stateClean { st with currentAgentPolicy := some pol } = true := by
  simp only [stateClean, Bool.and_eq_true] at hst ⊢
  tauto

theorem stateClean_upd_specVersion {st : PState} {v : Str}
    (hst : stateClean st = true) (hv : cleanStr v = true) :
    stateClean { st with specVersion := v } = true := by
  simp only [stateClean, Bool.and_eq_true] at hst ⊢
  tauto

theorem stateClean_upd_generatedAt {st : PState} {v : Str}
    (hst : stateClean st = true) (hv : cleanStr v = true) :
    stateClean { st with generatedAt := some v } = true := by
  simp only [stateClean, cleanOpt, Option.getD_some, Bool.and_eq_true] at hst ⊢
  tauto

theorem stateClean_upd_siteName {st : PState} {v : Str}
    (hst : stateClean st = true) (hv : cleanStr v = true) :
    stateClean { st with siteName := some v } = true := by
  simp only [stateClean, cleanOpt, Option.getD_some, Bool.and_eq_true] at hst ⊢
  tauto

theorem stateClean_upd_siteUrl {st : PState} {v : Str}
    (hst : stateClean st = true) (hv : cleanStr v = true) :
    stateClean { st with siteUrl := some v } = true := by
  simp only [stateClean, cleanOpt, Option.getD_some, Bool.and_eq_true] at hst ⊢
  tauto

theorem stateClean_upd_siteDescription {st : PState} {v : Str}
    (hst : stateClean st = true) (hv : cleanStr v = true) :
    stateClean { st with siteDescription := some v } = true := by
  simp only [stateClean, cleanOpt, Option.getD_some, Bool.and_eq_true] at hst ⊢
  tauto

theorem stateClean_upd_siteContact {st : PState} {v : Str}
    (hst : stateClean st = true) (hv : cleanStr v = true) :
    stateClean { st with siteContact := some v } = true := by
  simp only [stateClean, cleanOpt, Option.getD_some, Bool.and_eq_true] at hst ⊢
  tauto

theorem stateClean_upd_sitePrivacy {st : PState} {v : Str}
    (hst : stateClean st = true) (hv : cleanStr v = true) :
    stateClean { st with sitePrivacyPolicy := some v } = true := by
  simp only [stateClean, cleanOpt, Option.getD_some, Bool.and_eq_true] at hst ⊢
  tauto

theorem stateClean_upd_allow {st : PState} {v : Str}
    (hst : stateClean st = true) (hv : cleanStr v = true) :
    stateClean { st with allowPaths := st.allowPaths ++ [v] } = true := by
  simp only [stateClean, Bool.and_eq_true] at hst ⊢
  have : (st.allowPaths ++ [v]).all cleanStr = true := by
    simp only [List.all_append, List.all_cons, List.all_nil, Bool.and_eq_true, Bool.and_true]
    exact ⟨by tauto, hv⟩
  tauto

theorem stateClean_upd_disallow {st : PState} {v : Str}
    (hst : stateClean st = true) (hv : cleanStr v = true) :
    stateClean { st with disallowPaths := st.disallowPaths ++ [v] } = true := by
  simp only [stateClean, Bool.and_eq_true] at hst ⊢
  have : (st.disallowPaths ++ [v]).all cleanStr = true := by
    simp only [List.all_append, List.all_cons, List.all_nil, Bool.and_eq_true, Bool.and_true]
    exact ⟨by tauto, hv⟩
  tauto

theorem stateClean_upd_metadata {st : PState} {k v : Str}
    (hst : stateClean st = true) (hk : cleanStr k = true) (hv : cleanStr v = true) :
    stateClean { st with metadata := upsertAssoc st.metadata k v } = true := by
  simp only [stateClean, Bool.and_eq_true] at hst ⊢
  have : (upsertAssoc st.metadata k v).all (fun kv => cleanStr kv.1 && cleanStr kv.2) = true := by
    refine upsertAssoc_all (by tauto) ?_
    simp only [Bool.and_eq_true]
    exact ⟨hk, hv⟩
  tauto

theorem stateClean_upd_errors {st : PState} {e : List PMsg}
    (hst : stateClean st = true) :
    stateClean { st with errors := e } = true := by
  simp only [stateClean, Bool.and_eq_true] at hst ⊢
  tauto

theorem pcClean_make {v : Str} (hv : cleanStr v = true) :
    pcClean (PartialCap.make v) = true := by
  simp only [PartialCap.make, pcClean, cleanOpt]
  simp [hv, show cleanStr [] = true from rfl]

theorem stateClean_open_cap {st : PState} {v : Str}
    (hst : stateClean st = true) (hv : cleanStr v = true) :
    stateClean { st with currentCapability := some (PartialCap.make v),
                         state := ParserState.inCapability } = true := by
  simp only [stateClean, Bool.and_eq_true] at hst ⊢
  have := pcClean_make hv
  tauto

theorem stateClean_open_agent {st : PState} {v : Str}
    (hst : stateClean st = true) (hv : cleanStr v = true) :
    stateClean { st with currentAgentName := some v,
                         currentAgentPolicy := some ⟨none, none⟩,
                         state := ParserState.inAgent } = true := by
  simp only [stateClean, cleanOpt, Option.getD_some, Bool.and_eq_true] at hst ⊢
  have : policyClean ⟨none, none⟩ = true := rfl
  tauto

theorem stateClean_upd_state {st : PState} {ps : ParserState}
    (hst : stateClean st = true) :
    stateClean { st with state := ps } = true := by
  simp only [stateClean, Bool.and_eq_true] at hst ⊢
  tauto

theorem capStrings_of_pc {pc : PartialCap} (hpc : pcClean pc = true) :
    (capStrings ⟨pc.id, pc.description.getD [], pc.endpoint.getD [], pc.method,
      pc.protocol.getD (str "REST"), pc.auth, pc.rateLimit, pc.openapi,
      pc.parameters, pc.scopes⟩).all cleanStr = true := by
  obtain ⟨i, d, e, m, p, a, r, o, ps, sc⟩ := pc
  simp only [pcClean, cleanOpt, Bool.and_eq_true, and_assoc] at hpc
  obtain ⟨c1, c2, c3, c4, c5, c6, c7, c8, c9⟩ := hpc
  simp only [capStrings, List.all_append, List.all_cons, List.all_nil,
    Bool.and_eq_true, Bool.and_true, and_assoc]
  refine ⟨c1, c2, c3, ?_, ?_, ?_, ?_, ?_, c9⟩
  · cases m with
    | none => rfl
    | some mv => simpa [cleanOpt] using c4
  · cases p with
    | none => decide
    | some pv => simpa [cleanOpt] using c5
  · cases a with
    | none => rfl
    | some av => simpa using c6
  · cases o with
    | none => rfl
    | some ov => simpa [cleanOpt] using c7
  · rw [List.all_eq_true]
    intro x hx
    rw [List.mem_flatMap] at hx
    obtain ⟨pd, hpd, hxs⟩ := hx
    cases ps with
    | none => cases hpd
    | some ps0 =>
      simp only [Option.getD_some, List.all_eq_true] at c8
      exact c8 pd hpd x hxs

theorem stateClean_name_of {st : PState} {name : Str} (hst : stateClean st = true)
    (hn : st.currentAgentName = some name) : cleanStr name = true := by
  simp only [stateClean, Bool.and_eq_true, and_assoc] at hst
  obtain ⟨-, -, -, -, -, -, -, -, -, -, -, -, -, h14, -⟩ := hst
  rw [hn] at h14
  exact h14

theorem stateClean_upd_capnone {st : PState} (hst : stateClean st = true) :
    stateClean { st with currentCapability := none } = true := by
  have h13 : (match (none : Option PartialCap) with
      | some pc => pcClean pc | none => true) = true := rfl
  simp only [stateClean, Bool.and_eq_true] at hst ⊢
  tauto

theorem stateClean_commit_cap {st : PState} {pc : PartialCap}
    (hst : stateClean st = true) (hc : st.currentCapability = some pc) :
    stateClean { st with
      capabilities := st.capabilities ++
        [⟨pc.id, pc.description.getD [], pc.endpoint.getD [], pc.method,
          pc.protocol.getD (str "REST"), pc.auth, pc.rateLimit, pc.openapi,
          pc.parameters, pc.scopes⟩],
      currentCapability := none } = true := by
  have hcap := capStrings_of_pc (stateClean_cap_of hst hc)
  have h13 : (match (none : Option PartialCap) with
      | some pc => pcClean pc | none => true) = true := rfl
  simp only [stateClean, Bool.and_eq_true] at hst ⊢
  have hall : ((st.capabilities ++
      [(⟨pc.id, pc.description.getD [], pc.endpoint.getD [], pc.method,
        pc.protocol.getD (str "REST"), pc.auth, pc.rateLimit, pc.openapi,
        pc.parameters, pc.scopes⟩ : Capability)]).all
        (fun c => (capStrings c).all cleanStr)) = true := by
    simp only [List.all_append, List.all_cons, List.all_nil, Bool.and_eq_true,
      Bool.and_true]
    exact ⟨by tauto, hcap⟩
  tauto

theorem flushCapability_clean {st : PState} (hst : stateClean st = true) :
    stateClean (flushCapability st) = true := by
  rw [flushCapability]
  split
  · exact stateClean_upd_capnone hst
  · rename_i pc hc
    split
    · exact stateClean_upd_capnone hst
    · exact stateClean_commit_cap hst hc

theorem stateClean_clear_agent {st : PState} (hst : stateClean st = true) :
    stateClean { st with currentAgentName := none,
                         currentAgentPolicy := none } = true := by
  have h14 : cleanOpt (none : Option Str) = true := rfl
  have h15 : (match (none : Option AgentPolicy) with
      | some pol => policyClean pol | none => true) = true := rfl
  simp only [stateClean, Bool.and_eq_true] at hst ⊢
  tauto

theorem stateClean_commit_agent {st : PState} {name : Str} {pol : AgentPolicy}
    (hst : stateClean st = true) (hn : st.currentAgentName = some name)
    (hp : st.currentAgentPolicy = some pol) :
    stateClean { st with agents := upsertAssoc st.agents name pol,
                         currentAgentName := none,
                         currentAgentPolicy := none } = true := by
  have hpol := stateClean_pol_of hst hp
  have hname := stateClean_name_of hst hn
  have hup : (upsertAssoc st.agents name pol).all
      (fun e => cleanStr e.1 && policyClean e.2) = true := by
    refine upsertAssoc_all ?_ ?_
    · simp only [stateClean, Bool.and_eq_true] at hst
      tauto
    · simp only [Bool.and_eq_true]
      exact ⟨hname, hpol⟩
  have h14 : cleanOpt (none : Option Str) = true := rfl
  have h15 : (match (none : Option AgentPolicy) with
      | some pol => policyClean pol | none => true) = true := rfl
  simp only [stateClean, Bool.and_eq_true] at hst ⊢
  tauto

theorem flushAgent_clean {st : PState} (hst : stateClean st = true) :
    stateClean (flushAgent st) = true := by
  rw [flushAgent]
  rcases hn : st.currentAgentName with _ | name <;>
    rcases hp : st.currentAgentPolicy with _ | pol
  · exact stateClean_clear_agent hst
  · exact stateClean_clear_agent hst
  · exact stateClean_clear_agent hst
  · exact stateClean_commit_agent hst hn hp

theorem agentFieldStep_clean {st : PState} {pol : AgentPolicy} {lineNum : Nat}
    {key value : Str} (hst : stateClean st = true)
    (hpol : policyClean pol = true) (hvalue : cleanStr value = true) :
    stateClean (agentFieldStep st pol lineNum key value) = true := by
  rw [agentFieldStep]
  by_cases hN : key = str "Rate-Limit"
  · rw [if_pos hN]
    rcases hrl : parseRateLimit value with _ | rl
    · exact hst
    · exact stateClean_upd_pol hst hpol
  · rw [if_neg hN]
    by_cases hC : key = str "Capabilities"
    · rw [if_pos hC]
      refine stateClean_upd_pol hst ?_
      simp only [policyClean, Option.getD_some, List.all_eq_true]
      exact clean_splitCommaTrim hvalue
    · rw [if_neg hC]
      exact stateClean_upd_warnings hst

theorem topLevelFieldStep_clean {st : PState} {lineNum : Nat} {key value : Str}
    (hst : stateClean st = true) (hkey : cleanStr key = true)
    (hvalue : cleanStr value = true) :
    stateClean (topLevelFieldStep st lineNum key value) = true := by
  rw [topLevelFieldStep]
  by_cases h1 : key = str "Site-Name"
  · rw [if_pos h1]
    exact stateClean_upd_siteName hst hvalue
  rw [if_neg h1]
  by_cases h2 : key = str "Site-URL"
  · rw [if_pos h2]
    exact stateClean_upd_siteUrl hst hvalue
  rw [if_neg h2]
  by_cases h3 : (decide (key = str "Description") ||
      decide (key = str "Site-Description")) = true
  · rw [if_pos h3]
    exact stateClean_upd_siteDescription hst hvalue
  rw [if_neg h3]
  by_cases h4 : (decide (key = str "Contact") ||
      decide (key = str "Site-Contact")) = true
  · rw [if_pos h4]
    exact stateClean_upd_siteContact hst hvalue
  rw [if_neg h4]
  by_cases h5 : (decide (key = str "Privacy-Policy") ||
      decide (key = str "Site-Privacy-Policy")) = true
  · rw [if_pos h5]
    exact stateClean_upd_sitePrivacy hst hvalue
  rw [if_neg h5]
  by_cases h6 : key = str "Allow"
  · rw [if_pos h6]
    exact stateClean_upd_allow hst hvalue
  rw [if_neg h6]
  by_cases h7 : key = str "Disallow"
  · rw [if_pos h7]
    exact stateClean_upd_disallow hst hvalue
  rw [if_neg h7]
  by_cases h8 : key = str "Agents-JSON"
  · rw [if_pos h8]
    exact stateClean_upd_metadata hst (by decide) hvalue
  rw [if_neg h8]
  by_cases h9 : key = str "Capability"
  · rw [if_pos h9]
    by_cases hm : MAX_CAPABILITIES ≤ st.capabilities.length
    · rw [if_pos hm]
      exact stateClean_upd_errors hst
    · rw [if_neg hm]
      exact stateClean_open_cap hst hvalue
  rw [if_neg h9]
  by_cases h10 : key = str "Agent"
  · rw [if_pos h10]
    exact stateClean_open_agent hst hvalue
  rw [if_neg h10]
  exact stateClean_upd_metadata hst hkey hvalue

theorem flushStep1_clean {st : PState} (hst : stateClean st = true) :
    stateClean (if st.state = ParserState.inCapability then
      { flushCapability st with state := ParserState.top } else st) = true := by
  by_cases hq : st.state = ParserState.inCapability
  · rw [if_pos hq]
    exact stateClean_upd_state (flushCapability_clean hst)
  · rw [if_neg hq]
    exact hst

theorem flushStep2_clean {st : PState} (hst : stateClean st = true) :
    stateClean (if st.state = ParserState.inAgent then
      { flushAgent st with state := ParserState.top } else st) = true := by
  by_cases hq : st.state = ParserState.inAgent
  · rw [if_pos hq]
    exact stateClean_upd_state (flushAgent_clean hst)
  · rw [if_neg hq]
    exact hst

theorem parseStep_clean {st : PState} {lineNum : Nat} {raw : Str}
    (hst : stateClean st = true) (hraw : cleanStr raw = true) :
    stateClean (parseStep st lineNum raw) = true := by
  have htr : cleanStr (trim raw) = true := clean_trim hraw
  simp only [parseStep]
  by_cases hc : (decide (trim raw = []) ||
      decide ((trim raw).headD ' ' = '#')) = true
  · rw [if_pos hc]
    have hA : stateClean (match matchHashDirective (str "Spec-Version") (trim raw) with
        | some v => { st with specVersion := v }
        | none => st) = true := by
      rcases hm : matchHashDirective (str "Spec-Version") (trim raw) with _ | v
      · exact hst
      · exact stateClean_upd_specVersion hst (clean_matchHashDirective hm htr)
    rcases hm2 : matchHashDirective (str "Generated") (trim raw) with _ | v
    · exact hA
    · exact stateClean_upd_generatedAt hA (clean_matchHashDirective hm2 htr)
  · rw [if_neg hc]
    by_cases hp1 : ((str "  ").isPrefixOf raw || (str "\x09").isPrefixOf raw) = true ∧
        st.state = ParserState.inCapability ∧ st.currentCapability.isSome = true
    · rw [dif_pos hp1]
      have hcur : st.currentCapability = some (st.currentCapability.get hp1.2.2) :=
        (Option.some_get hp1.2.2).symm
      have hpc := stateClean_cap_of hst hcur
      rcases hbk : breakAt ':' (trim raw) with _ | ⟨rawKey, rawValue⟩
      · exact stateClean_upd_warnings hst
      · have hsub := breakAt_subset hbk
        exact capabilityFieldStep_clean hst hpc
          (clean_trim (clean_of_subset hsub.2 htr))
    · rw [dif_neg hp1]
      by_cases hp2 : ((str "  ").isPrefixOf raw || (str "\x09").isPrefixOf raw) = true ∧
          st.state = ParserState.inAgent ∧ st.currentAgentPolicy.isSome = true
      · rw [dif_pos hp2]
        have hcur : st.currentAgentPolicy = some (st.currentAgentPolicy.get hp2.2.2) :=
          (Option.some_get hp2.2.2).symm
        have hpol := stateClean_pol_of hst hcur
        rcases hbk : breakAt ':' (trim raw) with _ | ⟨rawKey, rawValue⟩
        · exact hst
        · have hsub := breakAt_subset hbk
          exact agentFieldStep_clean hst hpol
            (clean_trim (clean_of_subset hsub.2 htr))
      · rw [dif_neg hp2]
        have h2' := flushStep2_clean (flushStep1_clean hst)
        rcases hbk : breakAt ':' (trim raw) with _ | ⟨rawKey, rawValue⟩
        · exact stateClean_upd_warnings h2'
        · have hsub := breakAt_subset hbk
          exact topLevelFieldStep_clean h2'
            (clean_trim (clean_of_subset hsub.1 htr))
            (clean_trim (clean_of_subset hsub.2 htr))

theorem stateClean_init : stateClean PState.init = true := by decide

theorem clean_optList {o : Option Str} (h : cleanOpt o = true) :
    ((o.map (fun x => [x])).getD []).all cleanStr = true := by
  cases o with
  | none => rfl
  | some v => simpa [cleanOpt] using h

theorem all_flatMap_clean {α : Type} {f : α → List Str} {l : List α}
    (h : l.all (fun x => (f x).all cleanStr) = true) :
    (l.flatMap f).all cleanStr = true := by
  rw [List.all_eq_true]
  intro x hx
  rw [List.mem_flatMap] at hx
  obtain ⟨a, ha, hxa⟩ := hx
  rw [List.all_eq_true] at h
  have := h a ha
  rw [List.all_eq_true] at this
  exact this x hxa

theorem flushIf1_clean {st : PState} (hst : stateClean st = true) :
    stateClean (if st.state = ParserState.inCapability then
      flushCapability st else st) = true := by
  by_cases hq : st.state = ParserState.inCapability
  · rw [if_pos hq]
    exact flushCapability_clean hst
  · rw [if_neg hq]
    exact hst

theorem flushIf2_clean {st : PState} (hst : stateClean st = true) :
    stateClean (if st.state = ParserState.inAgent then
      flushAgent st else st) = true := by
  by_cases hq : st.state = ParserState.inAgent
  · rw [if_pos hq]
    exact flushAgent_clean hst
  · rw [if_neg hq]
    exact hst

theorem parseLines_clean {ls : List Str} : ∀ {st : PState} {n : Nat},
    stateClean st = true → (∀ l ∈ ls, cleanStr l = true) →
    stateClean (parseLines st n ls) = true := by
  induction ls with
  | nil =>
    intro st n hst _
    exact hst
  | cons l ls ih =>
    intro st n hst hls
    rw [parseLines]
    exact ih (parseStep_clean hst (hls l (List.mem_cons_self l ls)))
      (fun x hx => hls x (List.mem_cons_of_mem l hx))

theorem docStrings_clean_of_state {st : PState} (hst : stateClean st = true) :
    (docStrings ⟨st.specVersion, st.generatedAt,
      ⟨st.siteName.getD [], st.siteUrl.getD [], st.siteDescription,
       st.siteContact, st.sitePrivacyPolicy⟩,
      st.capabilities,
      ⟨(if st.allowPaths = [] then [str "*"] else st.allowPaths), st.disallowPaths⟩,
      (if st.agents = [] then [(str "*", (⟨none, none⟩ : AgentPolicy))] else st.agents),
      (if st.metadata = [] then none else some st.metadata)⟩).all cleanStr = true := by
  simp only [stateClean, Bool.and_eq_true, and_assoc] at hst
  obtain ⟨c1, c2, c3, c4, c5, c6, c7, c8, c9, c10, c11, c12, -, -, -⟩ := hst
  simp only [docStrings, List.all_append, List.all_cons, List.all_nil,
    Bool.and_eq_true, Bool.and_true, and_assoc]
  refine ⟨c1, clean_optList c2, c3, c4, clean_optList c5, clean_optList c6,
    clean_optList c7, all_flatMap_clean c8, ?_, c10, ?_, ?_⟩
  · by_cases ha : st.allowPaths = []
    · rw [if_pos ha]
      decide
    · rw [if_neg ha]
      exact c9
  · by_cases hag : st.agents = []
    · rw [if_pos hag]
      decide
    · rw [if_neg hag]
      refine all_flatMap_clean ?_
      rw [List.all_eq_true] at c11 ⊢
      intro e he
      have := c11 e he
      simp only [Bool.and_eq_true] at this
      simp only [List.all_cons, Bool.and_eq_true]
      exact ⟨this.1, this.2⟩
  · by_cases hm : st.metadata = []
    · rw [if_pos hm]
      rfl
    · rw [if_neg hm]
      refine all_flatMap_clean ?_
      rw [List.all_eq_true] at c12 ⊢
      intro kv hkv
      have := c12 kv hkv
      simp only [Bool.and_eq_true] at this
      simp only [List.all_cons, List.all_nil, Bool.and_eq_true, Bool.and_true]
      exact this

theorem parse_document_clean {input : Str} {doc : AgentsTxtDocument}
    (hlines : ∀ l ∈ splitLinesRN input, cleanStr l = true)
    (hdoc : (parse input).document = some doc) :
    (docStrings doc).all cleanStr = true := by
  simp only [parse] at hdoc
  by_cases hsize : MAX_INPUT_SIZE < input.length
  · rw [if_pos hsize] at hdoc
    exact Option.noConfusion hdoc
  · rw [if_neg hsize] at hdoc
    have h0 : stateClean (parseLines PState.init 1 (splitLinesRN input)) = true :=
      parseLines_clean stateClean_init hlines
    have h2 := flushIf2_clean (flushIf1_clean h0)
    generalize hg1 : (if (parseLines PState.init 1 (splitLinesRN input)).state =
        ParserState.inCapability then
          flushCapability (parseLines PState.init 1 (splitLinesRN input))
        else parseLines PState.init 1 (splitLinesRN input)) = st1 at hdoc h2
    generalize hg2 : (if st1.state = ParserState.inAgent then
        flushAgent st1 else st1) = st2 at hdoc h2
    by_cases herr : (st2.errors ++
        (if st2.siteName.getD [] = [] then
          [(⟨none, some (str "Site-Name"), str "Site-Name is required"⟩ : PMsg)]
         else []) ++
        (if st2.siteUrl.getD [] = [] then
          [(⟨none, some (str "Site-URL"), str "Site-URL is required"⟩ : PMsg)]
         else [])) ≠ []
    · rw [if_pos herr] at hdoc
      exact Option.noConfusion hdoc
    · rw [if_neg herr] at hdoc
      injection hdoc with h
      subst h
      exact docStrings_clean_of_state h2

/-- C2 (amended): `sanitizeValue` strips only the C0 range `0x00`-`0x1F`, so
the sanitization guarantee holds for every string `s` carrying such a byte and
every document `d` whose non-sanitized structured fields (spec version,
generated-at, metadata keys, agent capability lists, parameter types) are
control-free: every line `generate d` emits is control-free and does not
contain `s` (in particular `s`'s embedded newline opens no top-level
directive), and on re-parsing, every string of the resulting document is
control-free — `s` is never reconstructed. -/
theorem c2_sanitization_safety_amended {s : Str} {d : AgentsTxtDocument}
    (hs : cleanStr s = false) (_hcarry : carriesFreeText d s = true)
    (hclean : CleanStructured d = true) :
    (∀ line ∈ splitLinesRN (generate d),
        cleanStr line = true ∧ ¬ List.IsInfix s line) ∧
    (∀ doc, (parse (generate d)).document = some doc →
        (docStrings doc).all cleanStr = true ∧ s ∉ docStrings doc) := by
  have hallg : ∀ l ∈ generateLines d, cleanStr l = true := by
    have h := clean_generateLines hclean
    rw [List.all_eq_true] at h
    exact h
  have hne : generateLines d ≠ [] := by
    rw [generateLines]
    simp
  have hsplit : splitLinesRN (generate d) = generateLines d ++ [[]] := by
    rw [generate]
    exact splitLinesRN_join hallg hne
  have hlines : ∀ l ∈ splitLinesRN (generate d), cleanStr l = true := by
    intro l hl
    rw [hsplit] at hl
    rcases List.mem_append.mp hl with h | h
    · exact hallg l h
    · rw [List.mem_singleton] at h
      subst h
      rfl
  refine ⟨?_, ?_⟩
  · intro line hline
    have hcl := hlines line hline
    exact ⟨hcl, dirty_not_infix hs hcl⟩
  · intro doc hdoc
    have hall := parse_document_clean hlines hdoc
    exact ⟨hall, dirty_not_mem hs hall⟩

theorem c2_sanitization_safety_amended_witness :
    (cleanStr c2ws = false ∧ carriesFreeText c2wdoc c2ws = true ∧
     CleanStructured c2wdoc = true) ∧
    ((∀ line ∈ splitLinesRN (generate c2wdoc),
        cleanStr line = true ∧ ¬ List.IsInfix c2ws line) ∧
     (∀ doc, (parse (generate c2wdoc)).document = some doc →
        (docStrings doc).all cleanStr = true ∧ c2ws ∉ docStrings doc)) :=
  ⟨⟨by decide, by decide, by decide⟩,
   c2_sanitization_safety_amended (by decide) (by decide) (by decide)⟩


end AgentsTxt
